import Mathlib

/-
Verification of the sayo_api HID report codec and device API.

Shallow embedding of the Rust sources:
  src/report_codec.rs   (frame encode, decode, reassembly, awaiter dispatch)
  src/byte_converter.rs (RwBytes byte views)
  src/structures.rs     (HidReportHeader, ScreenBuffer, BroadCast TLV parser)
  src/device.rs         (request helpers, request_all_index, bulk set, reboot)
  src/device_constants.rs

Bytes are modelled as Nat; wrapping machine arithmetic is made explicit
with mod 256 and mod 65536 where the Rust code truncates.
-/

namespace Sayo

/-- Error type mirroring ReportError in src/report_codec.rs lines 18-29. -/
inductive ReportError where
  | BadHeaderLength (len : Nat)
  | BadReportHeader
  | BadReportLength (len : Nat)
  | CrcError
  | Timeout
  | ChannelError
  | UnsupportedReportId (id : Nat)
  | BadScreenBuffer
  | BadEncodingByte
  deriving DecidableEq, Repr

/-- Constants from src/report_codec.rs lines 50-55 and src/device.rs line 386. -/
def REPORT_ID_21 : Nat := 0x21

def REPORT_ID_22 : Nat := 0x22

def MAX_PACKAGE_LEN_21 : Nat := 56

def MAX_PACKAGE_LEN_22 : Nat := 1016

def HEADER_SIZE : Nat := 8

def CLIENT_ECHO : Nat := 0x13

/-- Additive 16-bit checksum, src/report_codec.rs get_crc16 (lines 376-385).
The index parity decides whether a byte lands in the low or high half;
wrapping_add is mod 2 to the 16. -/
def crcFrom (i crc : Nat) : List Nat → Nat
  | [] => crc
  | b :: rest =>
      crcFrom (i + 1) ((crc + (if i % 2 = 0 then b else b * 256)) % 65536) rest

def get_crc16 (data : List Nat) : Nat := crcFrom 0 0 data

/-- Packed status and length halfword, src/structures.rs sta_len (lines 36-55).
The Rust write is ((sta as u16) shl 10) or (len and 0x3FF); the shift of a
u16 wraps, which keeps only the low 6 bits of sta. -/
def mkStaLen (sta len : Nat) : Nat := (sta % 64) * 1024 + len % 1024

/-- Little-endian u16 read, RwBytes.u16 on two existing bytes. -/
def u16le (lo hi : Nat) : Nat := lo + 256 * hi

/-- Header byte reads on a packet, HidReportHeader accessors over the first
8 bytes (src/structures.rs lines 24-98).  Reads use RwBytes.u8 and u16,
which return none past the end of the buffer. -/
def hdrReportId (l : List Nat) : Option Nat := l[0]?

def hdrEcho (l : List Nat) : Option Nat := l[1]?

def hdrStaLen (l : List Nat) : Option Nat :=
  match l[4]?, l[5]? with
  | some lo, some hi => some (u16le lo hi)
  | _, _ => none

def hdrStatus (l : List Nat) : Option Nat := (hdrStaLen l).map (· / 1024)

def hdrLen (l : List Nat) : Option Nat := (hdrStaLen l).map (· % 1024)

def hdrCmd (l : List Nat) : Option Nat := l[6]?

def hdrIndex (l : List Nat) : Option Nat := l[7]?

/-- One encoded frame, the loop body of encode_report
(src/report_codec.rs lines 439-464): an 8-byte header with the CRC bytes
zero, then the body, then the CRC patched into bytes 2 and 3, then zero
padding up to a multiple of 4.  withCrc below is literally raw with bytes
2 and 3 replaced, written out as a list for direct computation. -/
def mkFrame (reportId echo cmd index status : Nat) (body : List Nat) : List Nat :=
  let sl := mkStaLen status (body.length + 4)
  let raw := reportId :: echo :: 0 :: 0 :: sl % 256 :: sl / 256 % 256 :: cmd :: index :: body
  let crc := get_crc16 raw
  let withCrc :=
    reportId :: echo :: crc % 256 :: crc / 256 % 256 :: sl % 256 :: sl / 256 % 256
      :: cmd :: index :: body
  withCrc ++ List.replicate ((4 - withCrc.length % 4) % 4) 0

/-- A codecable package as encode_report sees it: the optional compile-time
CMD tag, the StringContent encoding byte cell, and the into_vec bytes
(trait CodecableHidPackage, src/structures_codec.rs). -/
structure HidPackage where
  cmdTag : Option Nat
  encodingByte : Option Nat
  bytes : List Nat
  deriving DecidableEq, Repr

/-- Terminal status of the final frame: the StringContent encoding byte when
T is StringContent (CMD = some 1), otherwise 0 (src/report_codec.rs
lines 422-435). -/
def terminalOf (v : HidPackage) : Option Nat :=
  if v.cmdTag = some 1 then v.encodingByte else some 0

/-- Fragmentation loop of encode_report (src/report_codec.rs lines 420-471).
Every full chunk of cap body bytes carries status 1; the final short (or
empty) chunk carries the terminal status.  The Rust loop raises
BadEncodingByte when the terminal status is computed on the final
iteration; since that aborts the whole call the error is observationally
the same raised here.  The cap = 0 guard is unreachable: encode_report
only passes 56 or 1016. -/
def encodeFramesGo (cap reportId echo cmd index : Nat) (terminal : Option Nat)
    (remaining : List Nat) : Except ReportError (List (List Nat)) :=
  if _hcap : cap = 0 then .ok []
  else if _hlen : remaining.length ≤ cap then
    match terminal with
    | none => .error .BadEncodingByte
    | some t => .ok [mkFrame reportId echo cmd index t remaining]
  else
    match encodeFramesGo cap reportId echo cmd index terminal (remaining.drop cap) with
    | .error e => .error e
    | .ok rest => .ok (mkFrame reportId echo cmd index 1 (remaining.take cap) :: rest)
termination_by remaining.length
decreasing_by
  simp only [List.length_drop]
  omega

/-- encode_report, src/report_codec.rs lines 404-474. -/
def encode_report (reportId echo cmd index : Nat) (v : HidPackage) :
    Except ReportError (List (List Nat)) :=
  if reportId = REPORT_ID_21 then
    encodeFramesGo MAX_PACKAGE_LEN_21 reportId echo cmd index (terminalOf v) v.bytes
  else if reportId = REPORT_ID_22 then
    encodeFramesGo MAX_PACKAGE_LEN_22 reportId echo cmd index (terminalOf v) v.bytes
  else
    .error (.UnsupportedReportId reportId)

/-! ### Reassembly buffers and the decode entry point join -/

/-- Key of the segment and awaiter tables: (report_id, cmd, index). -/
abbrev Key := Nat × Nat × Nat

/-- HashMaps keyed by the triple, modelled as association lists. -/
def alGet {A : Type} (m : List (Key × A)) (k : Key) : Option A :=
  match m with
  | [] => none
  | (k2, v) :: rest => if k2 = k then some v else alGet rest k

def alSet {A : Type} (m : List (Key × A)) (k : Key) (v : A) : List (Key × A) :=
  match m with
  | [] => [(k, v)]
  | (k2, v2) :: rest => if k2 = k then (k, v) :: rest else (k2, v2) :: alSet rest k v

def alRemove {A : Type} (m : List (Key × A)) (k : Key) : List (Key × A) :=
  match m with
  | [] => []
  | (k2, v2) :: rest => if k2 = k then rest else (k2, v2) :: alRemove rest k

/-- The HashMap of partial bodies. -/
abbrev Buffers := List (Key × List Nat)

/-- Outcome of one join call.  ok carries the updated segment buffers and,
when a terminal frame completed a message, the (header bytes, body) pair
that the Rust code hands to on_package_complete.  panics marks the
reachable Rust slice panic packet[8 .. len+4] when the len field of an
otherwise accepted frame is below 4. -/
inductive JoinResult where
  | err (e : ReportError)
  | ok (bufs : Buffers) (completed : Option (List Nat × List Nat))
  | panics
  deriving DecidableEq, Repr

/-- ReportDecoder::join, src/report_codec.rs lines 80-150.  The state the
function reads and writes is the segment buffer map; the completed
message, if any, is returned instead of being dispatched.  Note that on a
frame with nonzero echo the code zeroes packet bytes 2 and 3 before
recomputing the checksum; the copies read later (header fields, body) are
unaffected, so the original packet is used below. -/
def join (bufs : Buffers) (packet : List Nat) : JoinResult :=
  if packet.length < HEADER_SIZE then .err (.BadHeaderLength packet.length)
  else
    let header := packet.take HEADER_SIZE
    match hdrReportId header with
    | none => .err .BadReportHeader
    | some reportId =>
      if reportId ≠ REPORT_ID_21 ∧ reportId ≠ REPORT_ID_22 then .ok bufs none
      else
        match hdrEcho header with
        | none => .err .BadReportHeader
        | some echo =>
          if echo ≠ CLIENT_ECHO ∧ echo ≠ 0 then .ok bufs none
          else
            let packetCrc := u16le (packet[2]?.getD 0) (packet[3]?.getD 0)
            let zeroed := (packet.set 2 0).set 3 0
            if echo ≠ 0 ∧ packetCrc ≠ get_crc16 zeroed then .err .CrcError
            else
              match hdrCmd header, hdrIndex header, hdrLen header, hdrStatus header with
              | some cmd, some index, some len, some status =>
                let handle : Key := (reportId, cmd, index)
                if len + 4 > packet.length % 65536 then .err (.BadReportLength packet.length)
                else if len + 4 < HEADER_SIZE then .panics
                else
                  let data := (packet.take (len + 4)).drop HEADER_SIZE
                  if status = 1 then
                    .ok (alSet bufs handle ((alGet bufs handle).getD [] ++ data)) none
                  else
                    match alGet bufs handle with
                    | some buffered =>
                        .ok (alRemove bufs handle) (some (header, buffered ++ data))
                    | none => .ok bufs (some (header, data))
              | _, _, _, _ => .err .BadReportHeader

/-- Feed a list of frames through join in order, collecting the completed
messages.  Stops at the first error or panic. -/
def joinAll (bufs : Buffers) : List (List Nat) →
    Except (Option ReportError) (Buffers × List (List Nat × List Nat))
  | [] => .ok (bufs, [])
  | p :: rest =>
    match join bufs p with
    | .err e => .error (some e)
    | .panics => .error none
    | .ok bufs2 ev =>
      match joinAll bufs2 rest with
      | .error e => .error e
      | .ok (bufs3, evs) => .ok (bufs3, (ev.map ([·])).getD [] ++ evs)

/-! ### Awaiter dispatch (ReportDecoder waiter_channels) -/

/-- A oneshot sender as the dispatcher sees it: an identity and whether the
receiving side has already been dropped (is_canceled). -/
structure Sender where
  id : Nat
  canceled : Bool
  deriving DecidableEq, Repr

abbrev Waiters := List (Key × List Sender)

/-- ReportDecoder::request_response registration, src/report_codec.rs
lines 316-327: entry(handle).or_insert(VecDeque::new()) then push_back. -/
def request_response (m : Waiters) (k : Key) (tx : Sender) : Waiters :=
  alSet m k ((alGet m k).getD [] ++ [tx])

/-- The pop loop of on_response_arrived, src/report_codec.rs lines 278-287:
pop_front until a sender that is not cancelled turns up; every popped
sender is gone from the queue. -/
def popWaiter : List Sender → Option Sender × List Sender
  | [] => (none, [])
  | tx :: rest => if tx.canceled then popWaiter rest else (some tx, rest)

/-- Waiter delivery of on_response_arrived, src/report_codec.rs
lines 270-304, for a header whose cmd is not the screen-buffer command.
Returns the updated map and the sender that receives (header, data), if
any.  A missing queue drops the packet; a drained queue stays in the map
as an empty entry. -/
def dispatchToWaiter (m : Waiters) (k : Key) : Waiters × Option Sender :=
  match alGet m k with
  | none => (m, none)
  | some q =>
    let r := popWaiter q
    (alSet m k r.2, r.1)

/-! ### Screen buffer mirror (cmd 0x25) -/

/-- Result of a Rust function that may also panic. -/
inductive RustResult (α : Type) where
  | ok (a : α)
  | err (e : ReportError)
  | panics
  deriving DecidableEq, Repr

/-- ScreenBuffer.addr, src/structures.rs line 1817: little-endian u32 at
offset 0; absent when the body is shorter than 4 bytes. -/
def screenBufAddr (data : List Nat) : Option Nat :=
  match data[0]?, data[1]?, data[2]?, data[3]? with
  | some b0, some b1, some b2, some b3 =>
      some (b0 + 256 * b1 + 65536 * b2 + 16777216 * b3)
  | _, _, _, _ => none

/-- ScreenBuffer.data, src/structures.rs line 1821: everything after the
4-byte address (RwBytes.vec with no explicit length); absent when the
body is shorter than 4 bytes. -/
def screenBufData (data : List Nat) : Option (List Nat) :=
  if data.length < 4 then none else some (data.drop 4)

/-- ReportDecoder::fill_screen_buffer, src/report_codec.rs lines 226-234.
The Rust code computes end = min(address + bytes.len(), mirror.len()) and
then calls Vec::splice(address..end, bytes): splice removes the range and
inserts ALL of bytes, and panics when address > end, that is when
address exceeds the mirror length. -/
def fill_screen_buffer (screen data : List Nat) : RustResult (List Nat) :=
  match screenBufAddr data, screenBufData data with
  | some address, some bytes =>
      let e := min (address + bytes.length) screen.length
      if address ≤ e then
        .ok (screen.take address ++ bytes ++ screen.drop e)
      else .panics
  | _, _ => .err .BadScreenBuffer

/-! ### RwBytes views (src/byte_converter.rs) -/

/-- A byte view: shared underlying buffer with an (offset, len) window.
For the bounds claims a snapshot of the buffer suffices. -/
structure RwBytes where
  data : List Nat
  offset : Nat
  len : Nat
  deriving DecidableEq, Repr

def RwBytes.new (bytes : List Nat) : RwBytes := ⟨bytes, 0, bytes.length⟩

/-- RwBytes::ref_at, src/byte_converter.rs lines 136-155: aliased sub-view,
absent when offset + index + len runs past the underlying buffer. -/
def RwBytes.ref_at (v : RwBytes) (index len : Nat) : Option RwBytes :=
  if v.offset + index + len > v.data.length then none
  else some ⟨v.data, v.offset + index, len⟩

/-- RwBytes::u8, src/byte_converter.rs lines 186-196.  Returns the byte now
at offset + index together with the possibly updated buffer; the bound is
checked against the underlying buffer, not the window. -/
def RwBytes.u8 (v : RwBytes) (index : Nat) (value : Option Nat) :
    Option Nat × List Nat :=
  let i := v.offset + index
  if i ≥ v.data.length then (none, v.data)
  else
    match value with
    | some w => (some w, v.data.set i w)
    | none => (v.data[i]?, v.data)

/-- RwBytes::u16, src/byte_converter.rs lines 210-224 (little-endian; the
read_i16 and i16 variants check the same bound). -/
def RwBytes.u16 (v : RwBytes) (index : Nat) (value : Option Nat) :
    Option Nat × List Nat :=
  let i := v.offset + index
  if i + 1 ≥ v.data.length then (none, v.data)
  else
    match value with
    | some w => (some w, (v.data.set i (w % 256)).set (i + 1) (w / 256 % 256))
    | none =>
      match v.data[i]?, v.data[i + 1]? with
      | some lo, some hi => (some (u16le lo hi), v.data)
      | _, _ => (none, v.data)

/-- RwBytes::u32, src/byte_converter.rs lines 268-284. -/
def RwBytes.u32 (v : RwBytes) (index : Nat) (value : Option Nat) :
    Option Nat × List Nat :=
  let i := v.offset + index
  if i + 3 ≥ v.data.length then (none, v.data)
  else
    match value with
    | some w =>
        (some w,
          ((((v.data.set i (w % 256)).set (i + 1) (w / 256 % 256)).set
            (i + 2) (w / 65536 % 256)).set (i + 3) (w / 16777216 % 256)))
    | none =>
      match v.data[i]?, v.data[i + 1]?, v.data[i + 2]?, v.data[i + 3]? with
      | some b0, some b1, some b2, some b3 =>
          (some (b0 + 256 * b1 + 65536 * b2 + 16777216 * b3), v.data)
      | _, _, _, _ => (none, v.data)

/-- RwBytes::vec, src/byte_converter.rs lines 286-306.  A write copies
write_len bytes of the supplied value; a read with an explicit length
returns that many bytes; both are bounded by the underlying buffer. -/
def RwBytes.vec (v : RwBytes) (index : Nat) (len : Option Nat)
    (value : Option (List Nat)) : Option (List Nat) × List Nat :=
  let i := v.offset + index
  match value with
  | some w =>
      let writeLen := len.getD w.length
      if i + writeLen > v.data.length ∨ writeLen > w.length then (none, v.data)
      else
        (some w, v.data.take i ++ w.take writeLen ++ v.data.drop (i + writeLen))
  | none =>
      let readLen := len.getD (v.data.length - i)
      if i + readLen > v.data.length then (none, v.data)
      else (some ((v.data.drop i).take readLen), v.data)

/-! ### Broadcast TLV parser (src/structures.rs BroadCastData, BroadCast) -/

/-- BroadCastData::data_len for the item starting at offset i of the
stream l (src/structures.rs lines 2394-2412).  Types below 0x80 carry 1
byte, below 0xC0 carry 2, below 0xE0 carry 4; at or above 0xE0 the byte
right after the type is an explicit length.  The u8 reads are bounded by
the underlying stream. -/
def bcDataLen (l : List Nat) (i : Nat) : Option Nat :=
  match l[i]? with
  | none => none
  | some tp =>
      if tp < 0x80 then some 1
      else if tp < 0xC0 then some 2
      else if tp < 0xE0 then some 4
      else l[i + 1]?

/-- RwBytes.vec read with an explicit length on the whole-stream buffer. -/
def vecRead (l : List Nat) (i n : Nat) : Option (List Nat) :=
  if i + n > l.length then none else some ((l.drop i).take n)

/-- BroadCastData::data, src/structures.rs lines 2427-2447, for the item at
offset i: explicit-length items skip the length byte and read one byte
less than the explicit length.  For explicit length 0 the usize
subtraction len - 1 overflows: with overflow checks the Rust panics
right there, and without them the wrapped length makes the bound check
of RwBytes::vec wrap too (i + 2 + usize MAX back to i + 1, inside the
stream because the length byte sits at i + 1) and the reversed slice
data[i+2 .. i+1] panics; either way the call panics. -/
def bcItemPayload (l : List Nat) (i : Nat) : RustResult (Option (List Nat)) :=
  match l[i]?, bcDataLen l i with
  | some tp, some dl =>
      if 0xE0 ≤ tp then
        if dl = 0 then .panics else .ok (vecRead l (i + 2) (dl - 1))
      else .ok (vecRead l (i + 1) dl)
  | _, _ => .ok none

/-- The while loop of BroadCast::data, src/structures.rs lines 2531-2572.
Items are returned as (start offset, total length) pairs, where the total
is BroadCastData::len() = data_len + 1 with u8 wrapping.  The loop stops
at the end of the stream, on a missing explicit length byte, on an item
that does not fit, on the sentinel type 0 (not yielded), and right after
yielding an item of type 0xE1.  An explicit length byte of 255 wraps the
total to 0 and the Rust loop then never advances; the fuel marks that
divergence as none. -/
def bcLoop (l : List Nat) : Nat → Nat → Option (List (Nat × Nat))
  | 0, _ => none
  | fuel + 1, i =>
    if i < l.length then
      match bcDataLen l i with
      | none => some []
      | some dl =>
        let total := (dl + 1) % 256
        if i + total > l.length then some []
        else if l[i]? = some 0 then some []
        else if l[i]? = some 0xE1 then some [(i, total)]
        else
          match bcLoop l fuel (i + total) with
          | none => none
          | some rest => some ((i, total) :: rest)
    else some []

/-- BroadCast::data: parse from offset 0.  Any terminating run makes at
most l.length + 1 loop entries because every yielded non-final item
consumes at least one byte. -/
def broadcast_data (l : List Nat) : Option (List (Nat × Nat)) :=
  bcLoop l (l.length + 1) 0

/-! ### Device request layer (src/device.rs) -/

def STATUS_OK : Nat := 0x00

def STATUS_PARTIAL : Nat := 0x02

def STATUS_COMPLETE : Nat := 0x03

/-- Status filter of SayoDeviceApi::request, src/device.rs lines 528-537. -/
def isGoodStatus (s : Nat) : Bool := s == STATUS_OK || s == STATUS_PARTIAL || s == STATUS_COMPLETE

/-- SayoDeviceApi::request over an abstract response: request_with_header
either yields no response (send failure or timeout) or a (status, body)
pair; request keeps the body only for a success status. -/
def request (resp : Option (Nat × List Nat)) : Option (List Nat) :=
  match resp with
  | none => none
  | some (s, v) => if isGoodStatus s then some v else none

/-- Reboot-family payloads, src/device.rs lines 669-715 with the constants
of src/device_constants.rs: 2 magic bytes 0x96 0x72 then the subcommand
and its bitwise complement. -/
def rebootPayload : List Nat := [0x96, 0x72, 0x01, 0xFE]

def recoveryPayload : List Nat := [0x96, 0x72, 0xFE, 0x01]

def bootloaderPayload : List Nat := [0x96, 0x72, 0xFF, 0x00]

/-- SayoDeviceApi::reboot, src/device.rs lines 669-683: true when the
request yields nothing, false when it yields a value. -/
def reboot (resp : Option (Nat × List Nat)) : Bool :=
  match request resp with
  | some _ => false
  | none => true

/-- SayoDeviceApi::recovery, src/device.rs lines 685-699. -/
def recovery (resp : Option (Nat × List Nat)) : Bool :=
  match request resp with
  | some _ => false
  | none => true

/-- SayoDeviceApi::into_bootloader, src/device.rs lines 701-715. -/
def into_bootloader (resp : Option (Nat × List Nat)) : Bool :=
  match request resp with
  | some _ => false
  | none => true

/-! ### request_all_index (src/device.rs lines 540-609) -/

def MAX_RETRY_COUNT : Nat := 8

/-- The loop of request_all_index.  The oracle gives the k-th issued
request its outcome: none for an absent response, some (status, value)
otherwise.  State: k requests issued so far, current index, consecutive
failure count, accumulator (reversed).  Returns (collected values,
number of requests issued).  The Rust loop is unbounded; the fuel is an
embedding device and 2304 is shown sufficient in the theorems below. -/
def raiGo (oracle : Nat → Option (Nat × Nat)) :
    Nat → Nat → Nat → Nat → List Nat → List Nat × Nat
  | 0, k, _, _, acc => (acc.reverse, k)
  | fuel + 1, k, index, fails, acc =>
    if fails ≥ MAX_RETRY_COUNT then (acc.reverse, k)
    else
      match oracle k with
      | none => raiGo oracle fuel (k + 1) index (fails + 1) acc
      | some (s, v) =>
        if isGoodStatus s then
          if index + 1 = 0xFF then ((v :: acc).reverse, k + 1)
          else raiGo oracle fuel (k + 1) (index + 1) 0 (v :: acc)
        else (acc.reverse, k + 1)

def request_all_index (oracle : Nat → Option (Nat × Nat)) : List Nat × Nat :=
  raiGo oracle 2304 0 0 0 []

/-- Number of consecutive absent responses right before request n. -/
def failsAt (oracle : Nat → Option (Nat × Nat)) : Nat → Nat
  | 0 => 0
  | n + 1 => if (oracle n).isNone then failsAt oracle n + 1 else 0

/-- Number of success-status responses among the first n requests; this is
the index the loop carries. -/
def goodCount (oracle : Nat → Option (Nat × Nat)) : Nat → Nat
  | 0 => 0
  | n + 1 =>
      goodCount oracle n +
        match oracle n with
        | some (s, _) => if isGoodStatus s then 1 else 0
        | none => 0

/-- Values of the success-status responses among the first n requests, in
order of the index they were collected at. -/
def collectGood (oracle : Nat → Option (Nat × Nat)) (n : Nat) : List Nat :=
  (List.range n).filterMap fun k =>
    match oracle k with
    | some (s, v) => if isGoodStatus s then some v else none
    | none => none

/-- Stop condition of the request_all_index loop as the code has it: 8
consecutive absent responses, or a response whose status is not a
success status, or the index reaching 0xFF (255 collected values). -/
def stopCondB (oracle : Nat → Option (Nat × Nat)) (n : Nat) : Bool :=
  decide (8 ≤ failsAt oracle n) ||
  (decide (1 ≤ n) &&
    match oracle (n - 1) with
    | some (s, _) => !isGoodStatus s
    | none => false) ||
  (decide (1 ≤ n) &&
    (match oracle (n - 1) with
     | some (s, _) => isGoodStatus s
     | none => false) &&
    goodCount oracle n == 255)

/-- Stop condition as claim C8 words it: 8 consecutive absent responses, a
response with the unknown-index status 0x10, or the index wrapping past
0xFF (256 collected values). -/
def claimStopB (oracle : Nat → Option (Nat × Nat)) (n : Nat) : Bool :=
  decide (8 ≤ failsAt oracle n) ||
  (decide (1 ≤ n) &&
    match oracle (n - 1) with
    | some (s, _) => s == 0x10
    | none => false) ||
  decide (256 ≤ goodCount oracle n)

/-! ### Bulk address-range set (src/device.rs set_addressable_data) -/

def MAX_PACKET_LEN_REPORT_21 : Nat := 64 - 12

def MAX_PACKET_LEN_REPORT_22 : Nat := 1024 - 12

def ADDR_ALIGNMENT : Nat := 4096

/-- Little-endian 4-byte address prefix, the four push calls at
src/device.rs lines 1450-1453. -/
def le32 (a : Nat) : List Nat :=
  [a % 256, a / 256 % 256, a / 65536 % 256, a / 16777216 % 256]

/-- The chunking loop for i in (0..bytes.len()).step_by(cap) of
src/device.rs lines 1446-1462: each packet is the 4-byte little-endian
address followed by up to cap data bytes.  The cap = 0 guard is
unreachable from set_addressable_data (the report id is always 0x21 or
0x22 there). -/
def buildPackets (cap address : Nat) (l : List Nat) : List (List Nat) :=
  if _h : cap = 0 ∨ l = [] then []
  else (le32 address ++ l.take cap) :: buildPackets cap (address + cap) (l.drop cap)
termination_by l.length
decreasing_by
  simp only [List.length_drop]
  rcases l with _ | ⟨a, l⟩
  · simp at _h
  · simp only [List.length_cons]
    omega

/-- One step of the response loop of set_addressable_data, src/device.rs
lines 1463-1485: chunk k succeeds when the oracle says so; a failure
clears the overall flag and records k; after every chunk the progress
callback is invoked with (k+1, n) and its boolean result is discarded. -/
def bulkStep (oracle : Nat → Bool) (n : Nat)
    (st : Bool × List Nat × List (Nat × Nat)) (k : Nat) :
    Bool × List Nat × List (Nat × Nat) :=
  match oracle k with
  | true => (st.1, st.2.1, st.2.2 ++ [(k + 1, n)])
  | false => (false, st.2.1 ++ [k], st.2.2 ++ [(k + 1, n)])

def runBulk (oracle : Nat → Bool) (n : Nat) :
    Bool × List Nat × List (Nat × Nat) :=
  (List.range n).foldl (bulkStep oracle n) (true, [], [])

structure BulkSetResult where
  success : Bool
  failedIndex : List Nat
  progressCalls : List (Nat × Nat)
  packets : List (List Nat)
  deriving DecidableEq, Repr

/-- Alignment of the start address: align base_addr down to 4096
(src/device.rs lines 1402-1406). -/
def alignStart (base : Nat) : Nat := base - base % ADDR_ALIGNMENT

/-- Alignment of the end address: bump by one when it coincides with the
aligned start, then align up to 4096 (src/device.rs lines 1407-1412). -/
def alignEnd (base len : Nat) : Nat :=
  let a1 := if len = alignStart base then len + 1 else len
  if a1 % ADDR_ALIGNMENT ≠ 0 then a1 + (ADDR_ALIGNMENT - a1 % ADDR_ALIGNMENT) else a1

/-- SayoDeviceApi::set_addressable_data, src/device.rs lines 1382-1500.
The address range is aligned to 4096, the data windowed and zero-padded,
split into address-prefixed chunks of the per-report packet capacity, and
each chunk is issued in order; the oracle decides which requests receive
a successful response, and cb is the progress callback (whose return
value the code drops).  A failing ref_at returns false without issuing
anything. -/
def set_addressable_data (reportId : Nat) (data : List Nat) (baseAddr : Nat)
    (oracle : Nat → Bool) (_cb : Nat → Nat → Bool) : BulkSetResult :=
  let cap := if reportId = REPORT_ID_21 then MAX_PACKET_LEN_REPORT_21
    else if reportId = REPORT_ID_22 then MAX_PACKET_LEN_REPORT_22 else 0
  let address := alignStart baseAddr
  let addrEnd := alignEnd baseAddr data.length
  let bytesOpt : Option (List Nat) :=
    if addrEnd > data.length then
      if address + (data.length - address) > data.length then none
      else some ((data.drop address).take (data.length - address) ++
        List.replicate (addrEnd - data.length) 0)
    else
      if address + (addrEnd - address) > data.length then none
      else some ((data.drop address).take (addrEnd - address))
  match bytesOpt with
  | none => ⟨false, [], [], []⟩
  | some bytes =>
    let packets := buildPackets cap address bytes
    let r := runBulk oracle packets.length
    ⟨r.1, r.2.1, r.2.2, packets⟩

/-- Chunk-issuing behaviour that claim C7 describes: after each issued
chunk the progress callback runs and a false return cancels the
remaining chunks.  Returns how many of the n chunks get issued.
Modelled from the claim text, for comparison against the code above;
the first argument is fuel for structural recursion (n suffices). -/
def claimIssuedGo (cb : Nat → Nat → Bool) (n : Nat) : Nat → Nat → Nat
  | 0, _ => 0
  | fuel + 1, k =>
    if k < n then
      if cb (k + 1) n then 1 + claimIssuedGo cb n fuel (k + 1) else 1
    else 0

def claimIssued (cb : Nat → Nat → Bool) (n : Nat) : Nat := claimIssuedGo cb n n 0

/-! ### Helper lemmas -/

theorem crcFrom_lt (l : List Nat) : ∀ i c, c < 65536 → crcFrom i c l < 65536 := by
  induction l with
  | nil => intro i c h; simpa [crcFrom] using h
  | cons b rest ih =>
      intro i c h
      simp only [crcFrom]
      exact ih _ _ (Nat.mod_lt _ (by norm_num))

theorem get_crc16_lt (l : List Nat) : get_crc16 l < 65536 :=
  crcFrom_lt l 0 0 (by norm_num)

theorem crcFrom_replicate_zero (k : Nat) : ∀ i c, c < 65536 →
    crcFrom i c (List.replicate k 0) = c := by
  induction k with
  | zero => intro i c _; simp [crcFrom]
  | succ k ih =>
      intro i c h
      simp only [List.replicate_succ, crcFrom]
      have hz : (c + (if i % 2 = 0 then 0 else 0 * 256)) % 65536 = c := by
        split <;> simp [Nat.mod_eq_of_lt h]
      rw [hz]
      exact ih _ _ h

theorem crcFrom_append_zeros (l : List Nat) (k : Nat) : ∀ i c, c < 65536 →
    crcFrom i c (l ++ List.replicate k 0) = crcFrom i c l := by
  induction l with
  | nil =>
      intro i c h
      simpa [crcFrom] using crcFrom_replicate_zero k i c h
  | cons b rest ih =>
      intro i c h
      simp only [List.cons_append, crcFrom]
      exact ih _ _ (Nat.mod_lt _ (by norm_num))

theorem get_crc16_append_zeros (l : List Nat) (k : Nat) :
    get_crc16 (l ++ List.replicate k 0) = get_crc16 l :=
  crcFrom_append_zeros l k 0 0 (by norm_num)

theorem alGet_alSet {A : Type} (m : List (Key × A)) (k k2 : Key) (v : A) :
    alGet (alSet m k v) k2 = if k2 = k then some v else alGet m k2 := by
  induction m with
  | nil =>
      by_cases h : k2 = k
      · subst h
        simp [alSet, alGet]
      · have h2 : ¬(k = k2) := fun hh => h hh.symm
        simp only [alSet, alGet]
        rw [if_neg h2, if_neg h]
  | cons p rest ih =>
      obtain ⟨k3, v3⟩ := p
      simp only [alSet]
      by_cases h3 : k3 = k
      · rw [if_pos h3]
        subst h3
        simp only [alGet]
        by_cases h : k2 = k3
        · subst h
          simp
        · have h2 : ¬(k3 = k2) := fun hh => h hh.symm
          rw [if_neg h2, if_neg h, if_neg h2]
      · rw [if_neg h3]
        simp only [alGet, ih]
        by_cases ha : k3 = k2
        · by_cases hb : k2 = k
          · exact absurd (ha.trans hb) h3
          · rw [if_pos ha, if_neg hb, if_pos ha]
        · by_cases hb : k2 = k
          · rw [if_neg ha, if_pos hb, if_pos hb]
          · rw [if_neg ha, if_neg hb, if_neg hb, if_neg ha]

theorem popWaiter_eq (q : List Sender) :
    popWaiter q = ((q.dropWhile (·.canceled)).head?, (q.dropWhile (·.canceled)).tail) := by
  induction q with
  | nil => simp [popWaiter]
  | cons tx rest ih =>
      by_cases h : tx.canceled
      · simp [popWaiter, h, List.dropWhile_cons, ih]
      · simp [popWaiter, h, List.dropWhile_cons]

theorem popWaiter_not_canceled (q : List Sender) :
    (popWaiter q).1.elim True (fun s => s.canceled = false) := by
  induction q with
  | nil => simp [popWaiter]
  | cons tx rest ih =>
      by_cases h : tx.canceled
      · simpa [popWaiter, h] using ih
      · simp [popWaiter, h]

/-! ### Claim theorems -/

/-- Claim C5: registering a request appends its sender to the back of the
FIFO at key (report_id, cmd, index) and leaves other keys alone; the
dispatch of a completed response discards the cancelled senders at the
front of the FIFO and delivers to the first non-cancelled sender (issue
order), never to a cancelled one; when the queue is absent (or holds no
live sender) the packet is dropped. -/
theorem C5_fifo_awaiters (m : Waiters) (k : Key) (tx : Sender) (q : List Sender) :
    (∀ k2, alGet (request_response m k tx) k2 =
        if k2 = k then some ((alGet m k).getD [] ++ [tx]) else alGet m k2) ∧
    (popWaiter q = ((q.dropWhile (·.canceled)).head?, (q.dropWhile (·.canceled)).tail)) ∧
    ((popWaiter q).1.elim True (fun s => s.canceled = false)) ∧
    (dispatchToWaiter m k =
      match alGet m k with
      | none => (m, none)
      | some q2 =>
          (alSet m k (q2.dropWhile (·.canceled)).tail, (q2.dropWhile (·.canceled)).head?)) := by
  refine ⟨?_, popWaiter_eq q, popWaiter_not_canceled q, ?_⟩
  · intro k2
    simp [request_response, alGet_alSet]
  · unfold dispatchToWaiter
    cases alGet m k with
    | none => rfl
    | some q2 => simp [popWaiter_eq]

/-- Claim C6 (code bug): a screen-buffer fill whose data overlaps the end
of the mirror grows the mirror instead of clipping (with a 10-byte
mirror, writing 5 bytes at address 8 leaves 13 bytes), and an address
beyond the mirror length makes Vec::splice panic instead of clipping. -/
theorem C6_screen_eval :
    fill_screen_buffer (List.replicate 10 0) [8, 0, 0, 0, 1, 2, 3, 4, 5] =
      RustResult.ok [0, 0, 0, 0, 0, 0, 0, 0, 1, 2, 3, 4, 5] ∧
    ([0, 0, 0, 0, 0, 0, 0, 0, 1, 2, 3, 4, 5] : List Nat).length ≠
      (List.replicate 10 (0 : Nat)).length ∧
    fill_screen_buffer (List.replicate 10 0) [20, 0, 0, 0, 1] = RustResult.panics := by
  decide

/-- Claim C9 counterexample: on the sub-view at (offset 2, window length 3)
of a 10-byte buffer, a u8 write at index 4 is outside the window (3 ≤ 4)
yet succeeds and overwrites the underlying byte 6 beyond the window. -/
theorem C9_counterexample :
    (RwBytes.new [10, 11, 12, 13, 14, 15, 16, 17, 18, 19]).ref_at 2 3 =
      some ⟨[10, 11, 12, 13, 14, 15, 16, 17, 18, 19], 2, 3⟩ ∧
    (RwBytes.mk [10, 11, 12, 13, 14, 15, 16, 17, 18, 19] 2 3).u8 4 (some 99) =
      (some 99, [10, 11, 12, 13, 14, 15, 99, 17, 18, 19]) ∧
    (3 : Nat) ≤ 4 := by
  decide

/-- Claim C9 (amended): the typed accessors and ref_at bound-check against
the end of the underlying buffer (offset + index + access size), not
against the window length of the view; an access past the buffer end
returns absent and leaves the buffer unchanged, and a write inside the
buffer only rewrites the addressed bytes. -/
theorem C9_buffer_bounds (v : RwBytes) (i w n : Nat) (ws : List Nat) :
    ((v.u8 i none).1 = none ↔ v.data.length ≤ v.offset + i) ∧
    ((v.u8 i none).2 = v.data) ∧
    (v.u8 i (some w) =
      if v.data.length ≤ v.offset + i then (none, v.data)
      else (some w, v.data.set (v.offset + i) w)) ∧
    ((v.u16 i none).1 = none ↔ v.data.length ≤ v.offset + i + 1) ∧
    ((v.u16 i none).2 = v.data) ∧
    (v.u16 i (some w) =
      if v.data.length ≤ v.offset + i + 1 then (none, v.data)
      else (some w,
        (v.data.set (v.offset + i) (w % 256)).set (v.offset + i + 1) (w / 256 % 256))) ∧
    ((v.u32 i none).1 = none ↔ v.data.length ≤ v.offset + i + 3) ∧
    ((v.u32 i none).2 = v.data) ∧
    ((v.u32 i (some w)).1 = if v.data.length ≤ v.offset + i + 3 then none else some w) ∧
    ((v.u32 i (some w)).2.length = v.data.length) ∧
    ((v.vec i (some n) none).1 = none ↔ v.data.length < v.offset + i + n) ∧
    ((v.vec i (some n) none).2 = v.data) ∧
    ((v.vec i (some n) (some ws)).1 = none ↔
      (v.data.length < v.offset + i + n ∨ ws.length < n)) ∧
    ((v.vec i (some n) (some ws)).2 =
      if v.offset + i + n > v.data.length ∨ n > ws.length then v.data
      else v.data.take (v.offset + i) ++ ws.take n ++ v.data.drop (v.offset + i + n)) ∧
    ((v.ref_at i n).isSome ↔ v.offset + i + n ≤ v.data.length) := by
  refine ⟨?_, ?_, ?_, ?_, ?_, ?_, ?_, ?_, ?_, ?_, ?_, ?_, ?_, ?_, ?_⟩
  · by_cases h : v.offset + i ≥ v.data.length
    · simp [RwBytes.u8, h]
      try omega
    · have hlt : v.offset + i < v.data.length := by omega
      simp [RwBytes.u8, h, List.getElem?_eq_getElem hlt]
      try omega
  · by_cases h : v.offset + i ≥ v.data.length <;> simp [RwBytes.u8, h]
  · by_cases h : v.offset + i ≥ v.data.length
    · rw [if_pos (by omega)]
      simp [RwBytes.u8, h]
    · rw [if_neg (by omega)]
      simp [RwBytes.u8, h]
  · by_cases h : v.offset + i + 1 ≥ v.data.length
    · simp [RwBytes.u16, h]
      try omega
    · have h1 : v.offset + i < v.data.length := by omega
      have h2 : v.offset + i + 1 < v.data.length := by omega
      simp [RwBytes.u16, h, List.getElem?_eq_getElem h1, List.getElem?_eq_getElem h2]
      try omega
  · by_cases h : v.offset + i + 1 ≥ v.data.length
    · simp [RwBytes.u16, h]
    · have h1 : v.offset + i < v.data.length := by omega
      have h2 : v.offset + i + 1 < v.data.length := by omega
      simp [RwBytes.u16, h, List.getElem?_eq_getElem h1, List.getElem?_eq_getElem h2]
  · by_cases h : v.offset + i + 1 ≥ v.data.length
    · rw [if_pos (by omega)]
      simp [RwBytes.u16, h]
    · rw [if_neg (by omega)]
      simp [RwBytes.u16, h]
  · by_cases h : v.offset + i + 3 ≥ v.data.length
    · simp [RwBytes.u32, h]
      try omega
    · have h0 : v.offset + i < v.data.length := by omega
      have h1 : v.offset + i + 1 < v.data.length := by omega
      have h2 : v.offset + i + 2 < v.data.length := by omega
      have h3 : v.offset + i + 3 < v.data.length := by omega
      simp [RwBytes.u32, h, List.getElem?_eq_getElem h0, List.getElem?_eq_getElem h1,
        List.getElem?_eq_getElem h2, List.getElem?_eq_getElem h3]
      try omega
  · by_cases h : v.offset + i + 3 ≥ v.data.length
    · simp [RwBytes.u32, h]
    · have h0 : v.offset + i < v.data.length := by omega
      have h1 : v.offset + i + 1 < v.data.length := by omega
      have h2 : v.offset + i + 2 < v.data.length := by omega
      have h3 : v.offset + i + 3 < v.data.length := by omega
      simp [RwBytes.u32, h, List.getElem?_eq_getElem h0, List.getElem?_eq_getElem h1,
        List.getElem?_eq_getElem h2, List.getElem?_eq_getElem h3]
  · by_cases h : v.offset + i + 3 ≥ v.data.length
    · rw [if_pos (by omega)]
      simp [RwBytes.u32, h]
    · rw [if_neg (by omega)]
      simp [RwBytes.u32, h]
  · by_cases h : v.offset + i + 3 ≥ v.data.length <;> simp [RwBytes.u32, h]
  · by_cases h : v.offset + i + n > v.data.length
    · simp [RwBytes.vec, h]
      try omega
    · simp [RwBytes.vec, h]
      try omega
  · by_cases h : v.offset + i + n > v.data.length <;> simp [RwBytes.vec, h]
  · by_cases h : v.offset + i + n > v.data.length ∨ n > ws.length
    · simp only [RwBytes.vec, Option.getD_some, if_pos h]
      simpa using h
    · simp only [RwBytes.vec, Option.getD_some, if_neg h]
      simpa using h
  · by_cases h : v.offset + i + n > v.data.length ∨ n > ws.length
    · rw [if_pos h]
      simp only [RwBytes.vec, Option.getD_some, if_pos h]
    · rw [if_neg h]
      simp only [RwBytes.vec, Option.getD_some, if_neg h, List.append_assoc]
  · by_cases h : v.offset + i + n > v.data.length
    · simp [RwBytes.ref_at, h]
      try omega
    · simp [RwBytes.ref_at, h]
      try omega

/-- Claim C10: reboot, recovery and into_bootloader each return true
exactly when the underlying request yields no value, which happens
exactly when the response is absent or carries a non-success status; a
success-status answer makes them return false. -/
theorem C10_reboot_family (resp : Option (Nat × List Nat)) :
    (reboot resp = true ↔ request resp = none) ∧
    (recovery resp = true ↔ request resp = none) ∧
    (into_bootloader resp = true ↔ request resp = none) ∧
    (request resp = none ↔ ∀ s v, resp = some (s, v) → isGoodStatus s = false) := by
  cases resp with
  | none => simp [reboot, recovery, into_bootloader, request]
  | some p =>
      obtain ⟨s, val⟩ := p
      by_cases h : isGoodStatus s = true
      · simp [reboot, recovery, into_bootloader, request, h]
      · simp only [Bool.not_eq_true] at h
        simp [reboot, recovery, into_bootloader, request, h]

/-! ### Bulk-set lemmas (claim C7) -/

theorem buildPackets_eq_map (cap : Nat) (hcap : cap ≠ 0) :
    ∀ (n : Nat) (l : List Nat), l.length ≤ n → l ≠ [] → ∀ a,
    buildPackets cap a l = (List.range ((l.length + cap - 1) / cap)).map
      (fun j => le32 (a + j * cap) ++ ((l.drop (j * cap)).take cap)) := by
  intro n
  induction n with
  | zero =>
      intro l hl hne a
      cases l with
      | nil => exact absurd rfl hne
      | cons b t => simp at hl
  | succ n ih =>
      intro l hl hne a
      rw [buildPackets, dif_neg (by simp [hcap, hne])]
      by_cases hle : l.length ≤ cap
      · have hdrop : l.drop cap = [] := by
          rw [List.drop_eq_nil_iff]
          exact hle
        rw [hdrop, buildPackets, dif_pos (Or.inr rfl)]
        have h1 : 1 ≤ l.length := List.length_pos.mpr hne
        have hN : (l.length + cap - 1) / cap = 1 := by
          apply Nat.div_eq_of_lt_le <;> omega
        rw [hN]
        simp [List.range_succ]
      · have hlen : (l.drop cap).length = l.length - cap := List.length_drop cap l
        have hne2 : l.drop cap ≠ [] := by
          intro hc
          rw [List.drop_eq_nil_iff] at hc
          omega
        rw [ih (l.drop cap) (by omega) hne2 (a + cap)]
        have hN : (l.length + cap - 1) / cap = ((l.drop cap).length + cap - 1) / cap + 1 := by
          rw [hlen]
          have he : l.length + cap - 1 = (l.length - cap + cap - 1) + cap := by omega
          rw [he, Nat.add_div_right _ (Nat.pos_of_ne_zero hcap)]
        rw [hN, List.range_succ_eq_map]
        simp only [List.map_cons, List.map_map, Nat.zero_mul, Nat.add_zero, List.drop_zero]
        congr 1
        refine List.map_congr_left ?_
        intro j _
        simp only [Function.comp_apply, List.drop_drop, Nat.succ_eq_add_one]
        have e1 : a + cap + j * cap = a + (j + 1) * cap := by ring
        have e2 : cap + j * cap = (j + 1) * cap := by ring
        rw [e1, e2]

theorem bulkStep_foldl (oracle : Nat → Bool) (total : Nat) :
    ∀ (l : List Nat) (init : Bool × List Nat × List (Nat × Nat)),
    l.foldl (bulkStep oracle total) init =
      (init.1 && l.all oracle,
       init.2.1 ++ l.filter (fun k => !oracle k),
       init.2.2 ++ l.map (fun k => (k + 1, total))) := by
  intro l
  induction l with
  | nil => intro init; simp
  | cons k rest ih =>
      intro init
      simp only [List.foldl_cons, ih, bulkStep]
      cases h : oracle k <;>
        simp [h, List.filter_cons, List.map_cons, List.append_assoc, Bool.and_assoc]

theorem runBulk_eq (oracle : Nat → Bool) (n : Nat) :
    runBulk oracle n =
      ((List.range n).all oracle,
       (List.range n).filter (fun k => !oracle k),
       (List.range n).map (fun k => (k + 1, n))) := by
  simpa [runBulk] using bulkStep_foldl oracle n (List.range n) (true, [], [])

theorem lt_alignEnd (base len : Nat) (h : alignStart base ≤ len) :
    alignStart base < alignEnd base len := by
  have hm1 : (len + 1) % 4096 < 4096 := Nat.mod_lt _ (by norm_num)
  have hm2 : len % 4096 < 4096 := Nat.mod_lt _ (by norm_num)
  simp only [alignEnd, ADDR_ALIGNMENT] at *
  by_cases h1 : len = alignStart base <;> simp only [if_pos, if_neg, h1] <;>
    split_ifs <;> omega

/-- Unfolding of set_addressable_data on an in-range start address: the
windowed and padded bytes, the chunk list and the outcome of the
response loop in closed form. -/
theorem set_addressable_data_eq (rid : Nat) (data : List Nat) (base : Nat)
    (oracle : Nat → Bool) (cb : Nat → Nat → Bool)
    (hrid : rid = REPORT_ID_21 ∨ rid = REPORT_ID_22)
    (haddr : alignStart base ≤ data.length) :
    set_addressable_data rid data base oracle cb =
      (let cap := if rid = REPORT_ID_21 then MAX_PACKET_LEN_REPORT_21
         else MAX_PACKET_LEN_REPORT_22
       let address := alignStart base
       let bytes := (data.drop address).take (alignEnd base data.length - address) ++
         List.replicate (alignEnd base data.length - data.length) 0
       let n := (bytes.length + cap - 1) / cap
       ⟨(List.range n).all oracle,
        (List.range n).filter (fun k => !oracle k),
        (List.range n).map (fun k => (k + 1, n)),
        (List.range n).map (fun j =>
          le32 (address + j * cap) ++ ((bytes.drop (j * cap)).take cap))⟩) := by
  have hE := lt_alignEnd base data.length haddr
  set A := alignStart base with hA
  set E := alignEnd base data.length with hEdef
  set L := data.length with hL
  have hcapval : (if rid = REPORT_ID_21 then MAX_PACKET_LEN_REPORT_21
      else MAX_PACKET_LEN_REPORT_22) ≠ 0 := by
    rcases hrid with h | h <;> simp [h, MAX_PACKET_LEN_REPORT_21, MAX_PACKET_LEN_REPORT_22,
      REPORT_ID_21, REPORT_ID_22]
  have hdroplen : (data.drop A).length = L - A := List.length_drop A data
  have hbytes : (if E > L then
        if A + (L - A) > L then none
        else some ((data.drop A).take (L - A) ++ List.replicate (E - L) 0)
      else
        if A + (E - A) > L then none
        else some ((data.drop A).take (E - A))) =
      some ((data.drop A).take (E - A) ++ List.replicate (E - L) 0) := by
    by_cases hEL : E > L
    · rw [if_pos hEL, if_neg (by omega)]
      have ht1 : (data.drop A).take (L - A) = data.drop A := by
        apply List.take_of_length_le
        omega
      have ht2 : (data.drop A).take (E - A) = data.drop A := by
        apply List.take_of_length_le
        omega
      rw [ht1, ht2]
    · rw [if_neg hEL, if_neg (by omega)]
      have hz : E - L = 0 := by omega
      rw [hz]
      simp
  have hblen : ((data.drop A).take (E - A) ++ List.replicate (E - L) 0).length = E - A := by
    simp only [List.length_append, List.length_take, List.length_replicate, hdroplen]
    omega
  have hbne : (data.drop A).take (E - A) ++ List.replicate (E - L) 0 ≠ [] := by
    intro hc
    have := congrArg List.length hc
    rw [hblen] at this
    simp at this
    omega
  rcases hrid with h21 | h22
  · simp only [set_addressable_data, h21, if_pos rfl, ← hA, ← hEdef, ← hL, hbytes]
    rw [buildPackets_eq_map _ (by simpa [h21] using hcapval) _ _ (le_refl _) hbne A]
    simp only [List.length_map, List.length_range, hblen]
    rw [runBulk_eq]
    simp [hblen]
  · have hne : REPORT_ID_22 ≠ REPORT_ID_21 := by
      simp [REPORT_ID_21, REPORT_ID_22]
    simp only [set_addressable_data, h22, if_neg hne, if_pos rfl, ← hA, ← hEdef, ← hL, hbytes]
    rw [buildPackets_eq_map _ (by simpa [h22, hne] using hcapval) _ _ (le_refl _) hbne A]
    simp only [List.length_map, List.length_range, hblen]
    rw [runBulk_eq]
    simp [hblen]

/-- Claim C7 counterexample: with a 4096-byte aligned write over report
0x22 (five 1012-byte chunks) and a progress callback that always
returns false, the code still issues and reports progress for all five
chunks, while the cancellation behaviour the claim describes would stop
after the first chunk. -/
theorem C7_counterexample :
    (set_addressable_data 0x22 (List.replicate 4096 1) 0 (fun _ => true)
        (fun _ _ => false)).progressCalls = [(1, 5), (2, 5), (3, 5), (4, 5), (5, 5)] ∧
    (set_addressable_data 0x22 (List.replicate 4096 1) 0 (fun _ => true)
        (fun _ _ => false)).packets.length = 5 ∧
    claimIssued (fun _ _ => false) 5 = 1 := by
  have hL : (List.replicate 4096 (1 : Nat)).length = 4096 := List.length_replicate _ _
  have hAL : alignStart 0 ≤ (List.replicate 4096 (1 : Nat)).length := by
    rw [hL]
    decide
  have h := set_addressable_data_eq 0x22 (List.replicate 4096 1) 0 (fun _ => true)
      (fun _ _ => false) (Or.inr rfl) hAL
  have hc : (if (0x22 : Nat) = REPORT_ID_21 then MAX_PACKET_LEN_REPORT_21
      else MAX_PACKET_LEN_REPORT_22) = 1012 := by decide
  have hA : alignStart 0 = 0 := by decide
  have hE : alignEnd 0 4096 = 4096 := by decide
  rw [h]
  simp only [hc, hL, hA, hE, List.drop_zero, Nat.sub_self, Nat.sub_zero,
    List.take_replicate, Nat.min_self, List.replicate_zero, List.append_nil,
    List.length_replicate]
  have hN : (4096 + 1012 - 1) / 1012 = 5 := by norm_num
  rw [hN]
  refine ⟨by decide, ?_, by decide⟩
  simp only [List.length_map, List.length_range]

/-- Conclusion of the amended claim C7 at given arguments: the aligned
range is windowed, zero padded and split into N address-prefixed chunks
of the per-report capacity; all N chunks are issued in order; after
chunk k the progress callback receives (k, N) and its return value is
ignored (no cancellation); the operation succeeds exactly when every
chunk got a successful response, and the failed chunk indices are
recorded. -/
def C7Prop (rid : Nat) (data : List Nat) (base : Nat) (oracle : Nat → Bool)
    (cb : Nat → Nat → Bool) : Prop :=
  let cap := if rid = REPORT_ID_21 then MAX_PACKET_LEN_REPORT_21
    else MAX_PACKET_LEN_REPORT_22
  let address := alignStart base
  let bytes := (data.drop address).take (alignEnd base data.length - address) ++
    List.replicate (alignEnd base data.length - data.length) 0
  let n := (bytes.length + cap - 1) / cap
  let r := set_addressable_data rid data base oracle cb
  r.packets = (List.range n).map
    (fun j => le32 (address + j * cap) ++ ((bytes.drop (j * cap)).take cap)) ∧
  r.progressCalls = (List.range n).map (fun k => (k + 1, n)) ∧
  (r.success = true ↔ ∀ k < n, oracle k = true) ∧
  r.failedIndex = (List.range n).filter (fun k => !oracle k)

/-- Claim C7 (amended): set_addressable_data splits the aligned range into
address-prefixed chunks and issues all of them sequentially with a
progress call after each; the progress return value is ignored, so a
false return does not cancel the remaining chunks; the result is true
exactly when every chunk received a successful response, with failed
chunk indices recorded. -/
theorem C7_bulk_set (rid : Nat) (data : List Nat) (base : Nat)
    (oracle : Nat → Bool) (cb : Nat → Nat → Bool)
    (hrid : rid = REPORT_ID_21 ∨ rid = REPORT_ID_22)
    (haddr : alignStart base ≤ data.length) :
    C7Prop rid data base oracle cb := by
  unfold C7Prop
  rw [set_addressable_data_eq rid data base oracle cb hrid haddr]
  refine ⟨rfl, rfl, ?_, rfl⟩
  rw [List.all_eq_true]
  constructor
  · intro hall k hk
    exact hall k (List.mem_range.mpr hk)
  · intro hall k hk
    exact hall k (List.mem_range.mp hk)

theorem C7_bulk_set_witness :
    alignStart 0 ≤ ([5, 6, 7] : List Nat).length ∧
    C7Prop REPORT_ID_22 [5, 6, 7] 0 (fun _ => true) (fun _ _ => false) :=
  ⟨by decide, C7_bulk_set REPORT_ID_22 [5, 6, 7] 0 (fun _ => true) (fun _ _ => false)
    (Or.inr rfl) (by decide)⟩

/-! ### request_all_index lemmas (claim C8) -/

theorem goodCount_succ (oracle : Nat → Option (Nat × Nat)) (n : Nat) :
    goodCount oracle (n + 1) = goodCount oracle n +
      (match oracle n with
       | some (s, _) => if isGoodStatus s then 1 else 0
       | none => 0) := rfl

theorem failsAt_succ (oracle : Nat → Option (Nat × Nat)) (n : Nat) :
    failsAt oracle (n + 1) =
      if (oracle n).isNone then failsAt oracle n + 1 else 0 := rfl

theorem collectGood_succ (oracle : Nat → Option (Nat × Nat)) (n : Nat) :
    collectGood oracle (n + 1) = collectGood oracle n ++
      (match oracle n with
       | some (s, v) => if isGoodStatus s then [v] else []
       | none => []) := by
  unfold collectGood
  rw [List.range_succ, List.filterMap_append]
  congr 1
  cases h : oracle n with
  | none => simp [h]
  | some p =>
      obtain ⟨s, v⟩ := p
      by_cases hg : isGoodStatus s <;> simp [h, hg, List.filterMap]

theorem stopCondB_false (oracle : Nat → Option (Nat × Nat)) (k : Nat)
    (hf : failsAt oracle k < 8) (hgc : goodCount oracle k ≤ 254)
    (hprev : k = 0 ∨ ∀ s v, oracle (k - 1) = some (s, v) → isGoodStatus s = true) :
    stopCondB oracle k = false := by
  have h1 : decide (8 ≤ failsAt oracle k) = false := by
    simp only [decide_eq_false_iff_not]
    omega
  have h3 : (goodCount oracle k == 255) = false := by
    simp only [beq_eq_false_iff_ne, ne_eq]
    omega
  rcases hprev with h0 | hgood
  · subst h0
    simp [stopCondB, h1]
  · simp only [stopCondB, h1, h3, Bool.false_or, Bool.and_false, Bool.or_false]
    cases h : oracle (k - 1) with
    | none => simp
    | some p =>
        obtain ⟨s, v⟩ := p
        have := hgood s v h
        simp [this]

/-- The loop of request_all_index, characterized: starting from the state
that belongs to k already-issued requests, the loop runs on to the first
m at which a stop condition holds and returns the successes of the first
m requests in order.  The fuel bound follows the loop measure. -/
theorem raiGo_spec (oracle : Nat → Option (Nat × Nat)) :
    ∀ (fuel k : Nat),
      goodCount oracle k ≤ 254 →
      (k = 0 ∨ ∀ s v, oracle (k - 1) = some (s, v) → isGoodStatus s = true) →
      failsAt oracle k ≤ 8 →
      9 * (255 - goodCount oracle k) + (8 - failsAt oracle k) + 1 ≤ fuel →
      ∃ m, k ≤ m ∧
        raiGo oracle fuel k (goodCount oracle k) (failsAt oracle k)
            (collectGood oracle k).reverse = (collectGood oracle m, m) ∧
        stopCondB oracle m = true ∧
        (∀ j, k ≤ j → j < m → stopCondB oracle j = false) := by
  intro fuel
  induction fuel with
  | zero =>
      intro k hgc _ _ hfuel
      omega
  | succ fuel ih =>
      intro k hgc hprev hf8 hfuel
      by_cases hf : failsAt oracle k ≥ MAX_RETRY_COUNT
      · refine ⟨k, le_refl k, ?_, ?_, ?_⟩
        · simp [raiGo, hf, List.reverse_reverse]
        · simp only [stopCondB, MAX_RETRY_COUNT] at *
          simp [decide_eq_true_eq, hf]
        · intro j h1 h2
          omega
      · have hflt : failsAt oracle k < 8 := by
          simp only [MAX_RETRY_COUNT] at hf
          omega
        have hstopk : stopCondB oracle k = false := stopCondB_false oracle k hflt hgc hprev
        cases horc : oracle k with
        | none =>
            have hg1 : goodCount oracle (k + 1) = goodCount oracle k := by
              rw [goodCount_succ, horc]
              simp
            have hf1 : failsAt oracle (k + 1) = failsAt oracle k + 1 := by
              rw [failsAt_succ, horc]
              simp
            have hc1 : collectGood oracle (k + 1) = collectGood oracle k := by
              rw [collectGood_succ, horc]
              simp
            obtain ⟨m, hm1, hm2, hm3, hm4⟩ := ih (k + 1) (by omega)
              (Or.inr (by simp [horc])) (by omega) (by rw [hg1, hf1]; omega)
            rw [hg1, hf1, hc1] at hm2
            refine ⟨m, by omega, ?_, hm3, ?_⟩
            · simpa [raiGo, hf, horc] using hm2
            · intro j h1 h2
              rcases Nat.eq_or_lt_of_le h1 with he | hlt
              · rw [← he]
                exact hstopk
              · exact hm4 j hlt h2
        | some p =>
            obtain ⟨s, v⟩ := p
            by_cases hgood : isGoodStatus s
            · have hg1 : goodCount oracle (k + 1) = goodCount oracle k + 1 := by
                rw [goodCount_succ, horc]
                simp [hgood]
              have hf1 : failsAt oracle (k + 1) = 0 := by
                rw [failsAt_succ, horc]
                simp
              have hc1 : collectGood oracle (k + 1) = collectGood oracle k ++ [v] := by
                rw [collectGood_succ, horc]
                simp [hgood]
              by_cases hend : goodCount oracle k + 1 = 255
              · refine ⟨k + 1, by omega, ?_, ?_, ?_⟩
                · rw [hc1]
                  simp [raiGo, hf, horc, hgood, hend, List.reverse_reverse]
                · simp [stopCondB, Nat.add_sub_cancel, horc, hgood, hg1, hend, hf1]
                · intro j h1 h2
                  have : j = k := by omega
                  rw [this]
                  exact hstopk
              · obtain ⟨m, hm1, hm2, hm3, hm4⟩ := ih (k + 1) (by omega)
                  (Or.inr (by
                    intro s2 v2 he
                    simp only [Nat.add_sub_cancel, horc, Option.some.injEq,
                      Prod.mk.injEq] at he
                    rw [← he.1]
                    exact hgood))
                  (by omega) (by rw [hg1, hf1]; omega)
                rw [hg1, hf1, hc1] at hm2
                have hrev : (collectGood oracle k ++ [v]).reverse =
                    v :: (collectGood oracle k).reverse := by simp
                rw [hrev] at hm2
                refine ⟨m, by omega, ?_, hm3, ?_⟩
                · simpa [raiGo, hf, horc, hgood, hend] using hm2
                · intro j h1 h2
                  rcases Nat.eq_or_lt_of_le h1 with he | hlt
                  · rw [← he]
                    exact hstopk
                  · exact hm4 j hlt h2
            · refine ⟨k + 1, by omega, ?_, ?_, ?_⟩
              · have hc1 : collectGood oracle (k + 1) = collectGood oracle k := by
                  rw [collectGood_succ, horc]
                  simp [hgood]
                rw [hc1]
                simp [raiGo, hf, horc, hgood, List.reverse_reverse]
              · simp [stopCondB, Nat.add_sub_cancel, horc, hgood]
              · intro j h1 h2
                have : j = k := by omega
                rw [this]
                exact hstopk

/-- Conclusion of the amended claim C8: the loop returns exactly the
success-status values of the requests it issued, in index order, and the
number of issued requests m is the first point at which a stop condition
holds: 8 consecutive absent responses, or a response with a non-success
status, or the index reaching 0xFF after 255 collected values. -/
def C8Prop (oracle : Nat → Option (Nat × Nat)) : Prop :=
  (request_all_index oracle).1 =
    collectGood oracle (request_all_index oracle).2 ∧
  stopCondB oracle (request_all_index oracle).2 = true ∧
  ∀ j < (request_all_index oracle).2, stopCondB oracle j = false

/-- Claim C8 (amended): request_all_index issues requests for indices
0, 1, 2, ... (retrying an index on an absent response), collects the
success-status values in index order, and stops exactly when 8
consecutive requests were absent, or a response carried any non-success
status (unknown index included), or the index reached 0xFF after 255
collected values; index 0xFF itself is never requested. -/
theorem C8_request_all_index (oracle : Nat → Option (Nat × Nat)) :
    C8Prop oracle := by
  obtain ⟨m, _, hm2, hm3, hm4⟩ := raiGo_spec oracle 2304 0
    (by norm_num [goodCount]) (Or.inl rfl) (by norm_num [failsAt])
    (by norm_num [goodCount, failsAt])
  unfold C8Prop request_all_index
  have h0 : goodCount oracle 0 = 0 := rfl
  have h1 : failsAt oracle 0 = 0 := rfl
  have h2 : (collectGood oracle 0).reverse = [] := rfl
  rw [h0, h1, h2] at hm2
  rw [hm2]
  exact ⟨rfl, hm3, fun j hj => hm4 j (Nat.zero_le j) hj⟩

set_option maxRecDepth 4000 in
/-- Claim C8 counterexample: a first response with status 0x11 (present,
not the unknown-index status 0x10, no 8 absents, no index wrap) stops
the loop after one request, and an always-successful device stops after
255 requests with the index never wrapping past 0xFF; in both runs the
stop condition the claim words demand never became true. -/
theorem C8_counterexample :
    request_all_index (fun _ => some (0x11, 0)) = ([], 1) ∧
    claimStopB (fun _ => some (0x11, 0)) 1 = false ∧
    request_all_index (fun _ => some (0, 7)) = (List.replicate 255 7, 255) ∧
    claimStopB (fun _ => some (0, 7)) 255 = false := by
  refine ⟨by decide, by decide, by decide, by decide⟩

theorem C8_request_all_index_witness : C8Prop (fun _ => some (0x10, 3)) :=
  C8_request_all_index (fun _ => some (0x10, 3))

/-! ### Broadcast parser lemmas (claim C4) -/

/-- Items are consecutive: each starts where the previous one ended. -/
def chainedFrom : Nat → List (Nat × Nat) → Prop
  | _, [] => True
  | i, (p, t) :: rest => p = i ∧ chainedFrom (i + t) rest

/-- Structure of one yielded item (start p, total length t): the type byte
is not the sentinel; implicit-length families carry 1, 2 or 4 payload
bytes and a total of 1 + body length; an explicit-length type at or
above 0xE0 is followed by a length byte L, the total is (L + 1) mod 256
(2 + body length for 1 ≤ L ≤ 254, where the body is the L - 1 bytes
after the length byte), and L = 0 degenerates to a total of 1 while
reading such an item's payload panics (usize underflow in
BroadCastData::data). -/
def bcItemProp (l : List Nat) (p t : Nat) : Prop :=
  ∃ tp, l[p]? = some tp ∧ tp ≠ 0 ∧
    (tp < 0x80 → t = 2 ∧ bcItemPayload l p = .ok (some ((l.drop (p + 1)).take 1))) ∧
    (0x80 ≤ tp → tp < 0xC0 → t = 3 ∧
      bcItemPayload l p = .ok (some ((l.drop (p + 1)).take 2))) ∧
    (0xC0 ≤ tp → tp < 0xE0 → t = 5 ∧
      bcItemPayload l p = .ok (some ((l.drop (p + 1)).take 4))) ∧
    (0xE0 ≤ tp → ∃ L, l[p + 1]? = some L ∧ t = (L + 1) % 256 ∧
      (1 ≤ L → L ≤ 254 → t = 2 + (L - 1) ∧
        bcItemPayload l p = .ok (some ((l.drop (p + 2)).take (L - 1)))) ∧
      (L = 0 → t = 1 ∧ bcItemPayload l p = .panics))

/-- Conclusion of the amended claim C4 for a terminating parse. -/
def C4Prop (l : List Nat) (items : List (Nat × Nat)) : Prop :=
  chainedFrom 0 items ∧
  (∀ pt ∈ items, bcItemProp l pt.1 pt.2) ∧
  (∀ j, j + 1 < items.length → ∀ pt, items[j]? = some pt → l[pt.1]? ≠ some 0xE1)

theorem bcItemPayload_eq (l : List Nat) (i tp dl : Nat) (htp : l[i]? = some tp)
    (hdl : bcDataLen l i = some dl) :
    bcItemPayload l i =
      if 0xE0 ≤ tp then
        (if dl = 0 then .panics else .ok (vecRead l (i + 2) (dl - 1)))
      else .ok (vecRead l (i + 1) dl) := by
  unfold bcItemPayload
  rw [htp, hdl]

theorem bcLoop_spec (l : List Nat) : ∀ (fuel i : Nat) (items : List (Nat × Nat)),
    bcLoop l fuel i = some items →
    chainedFrom i items ∧
    (∀ pt ∈ items, bcItemProp l pt.1 pt.2) ∧
    (∀ j, j + 1 < items.length → ∀ pt, items[j]? = some pt → l[pt.1]? ≠ some 0xE1) := by
  intro fuel
  induction fuel with
  | zero => intro i items h; simp [bcLoop] at h
  | succ fuel ih =>
      intro i items h
      simp only [bcLoop] at h
      by_cases hin : i < l.length
      · rw [if_pos hin] at h
        cases hdl : bcDataLen l i with
        | none =>
            rw [hdl] at h
            simp at h
            subst h
            exact ⟨trivial, by simp, by simp⟩
        | some dl =>
            rw [hdl] at h
            simp only at h
            by_cases hfit : i + (dl + 1) % 256 > l.length
            · rw [if_pos hfit] at h
              simp at h
              subst h
              exact ⟨trivial, by simp, by simp⟩
            · rw [if_neg hfit] at h
              obtain ⟨tp, htp⟩ : ∃ tp, l[i]? = some tp :=
                ⟨l[i], List.getElem?_eq_getElem hin⟩
              have hdl2 : (if tp < 0x80 then some 1 else if tp < 0xC0 then some 2
                  else if tp < 0xE0 then some 4 else l[i + 1]?) = some dl := by
                have h2 := hdl
                unfold bcDataLen at h2
                rw [htp] at h2
                exact h2
              by_cases hzero : l[i]? = some 0
              · rw [if_pos hzero] at h
                simp at h
                subst h
                exact ⟨trivial, by simp, by simp⟩
              · rw [if_neg hzero] at h
                have htpne : tp ≠ 0 := by
                  intro he
                  rw [he] at htp
                  exact hzero htp
                have hitem : bcItemProp l i ((dl + 1) % 256) := by
                  refine ⟨tp, htp, htpne, ?_, ?_, ?_, ?_⟩
                  · intro hlt
                    rw [if_pos hlt] at hdl2
                    have hd1 : dl = 1 := by
                      injection hdl2 with hh
                      omega
                    subst hd1
                    refine ⟨by norm_num, ?_⟩
                    rw [bcItemPayload_eq l i tp _ htp hdl,
                      if_neg (show ¬(0xE0 ≤ tp) by omega)]
                    unfold vecRead
                    rw [if_neg (by omega)]
                  · intro hge hlt
                    rw [if_neg (by omega), if_pos hlt] at hdl2
                    have hd1 : dl = 2 := by
                      injection hdl2 with hh
                      omega
                    subst hd1
                    refine ⟨by norm_num, ?_⟩
                    rw [bcItemPayload_eq l i tp _ htp hdl,
                      if_neg (show ¬(0xE0 ≤ tp) by omega)]
                    unfold vecRead
                    rw [if_neg (by omega)]
                  · intro hge hlt
                    rw [if_neg (by omega), if_neg (by omega), if_pos hlt] at hdl2
                    have hd1 : dl = 4 := by
                      injection hdl2 with hh
                      omega
                    subst hd1
                    refine ⟨by norm_num, ?_⟩
                    rw [bcItemPayload_eq l i tp _ htp hdl,
                      if_neg (show ¬(0xE0 ≤ tp) by omega)]
                    unfold vecRead
                    rw [if_neg (by omega)]
                  · intro hge
                    rw [if_neg (by omega), if_neg (by omega), if_neg (by omega)] at hdl2
                    refine ⟨dl, hdl2, rfl, ?_, ?_⟩
                    · intro hL1 hL254
                      have hmod : (dl + 1) % 256 = dl + 1 := Nat.mod_eq_of_lt (by omega)
                      refine ⟨by omega, ?_⟩
                      rw [bcItemPayload_eq l i tp dl htp hdl, if_pos hge,
                        if_neg (by omega)]
                      unfold vecRead
                      rw [if_neg (by omega)]
                    · intro hL0
                      subst hL0
                      refine ⟨by norm_num, ?_⟩
                      rw [bcItemPayload_eq l i tp 0 htp hdl, if_pos hge, if_pos rfl]
                have hE0 : 0xE0 ≤ tp → l[i + 1]? = some dl := by
                  intro hge
                  rw [if_neg (by omega), if_neg (by omega), if_neg (by omega)] at hdl2
                  exact hdl2
                by_cases hE1 : l[i]? = some 0xE1
                · rw [if_pos hE1] at h
                  simp at h
                  subst h
                  refine ⟨⟨rfl, trivial⟩, ?_, ?_⟩
                  · intro pt hpt
                    simp at hpt
                    subst hpt
                    exact hitem
                  · intro j hj pt
                    simp at hj
                · rw [if_neg hE1] at h
                  cases hrec : bcLoop l fuel (i + (dl + 1) % 256) with
                  | none =>
                      rw [hrec] at h
                      simp at h
                  | some rest =>
                      rw [hrec] at h
                      simp at h
                      subst h
                      obtain ⟨hch, hprops, hnoE1⟩ := ih (i + (dl + 1) % 256) rest hrec
                      refine ⟨⟨rfl, hch⟩, ?_, ?_⟩
                      · intro pt hpt
                        rcases List.mem_cons.mp hpt with he | hm
                        · subst he
                          exact hitem
                        · exact hprops pt hm
                      · intro j hj pt hpt
                        cases j with
                        | zero =>
                            simp at hpt
                            subst hpt
                            exact hE1
                        | succ j2 =>
                            simp at hj hpt
                            exact hnoE1 j2 (by omega) pt hpt
      · rw [if_neg hin] at h
        simp at h
        subst h
        exact ⟨trivial, by simp, by simp⟩

/-- Claim C4 (amended): every terminating run of the broadcast TLV parser
yields consecutive items from offset 0 whose shapes follow the type
families (1, 2 or 4 payload bytes for the implicit families with total
1 + body; explicit 1-byte length L after a type at or above 0xE0 with
the length byte excluded from the payload and total 2 + body for
1 ≤ L ≤ 254, while L = 0 gives a 1-byte item whose payload read
panics); the sentinel type 0 is never yielded and only the last item
may have type 0xE1. -/
theorem C4_broadcast_items (l : List Nat) (items : List (Nat × Nat))
    (h : broadcast_data l = some items) : C4Prop l items :=
  bcLoop_spec l (l.length + 1) 0 items h

/-- Claim C4 counterexample: the stream [0xE0, 0x00] yields one item of the
explicit-length family whose explicit length byte is 0: the item
consumes 1 byte in total, not 2 + body length, and reading its payload
panics (usize underflow in BroadCastData::data). -/
theorem C4_counterexample :
    broadcast_data [0xE0, 0x00] = some [(0, 1)] ∧
    ([0xE0, 0x00] : List Nat)[1]? = some 0 ∧
    bcItemPayload [0xE0, 0x00] 0 = .panics := by
  refine ⟨by decide, by decide, by decide⟩

theorem C4_broadcast_items_witness :
    C4Prop [0x01, 0x58, 0xC0, 0x11, 0x22, 0x33, 0x44, 0xE1, 0x07, 1, 2, 3, 4, 5, 6, 7]
      [(0, 2), (2, 5), (7, 8)] :=
  C4_broadcast_items _ _ (by decide)

/-! ### Encoder lemmas (claims C1 and C2) -/

/-- Number of frames encode_report emits for an n-byte payload with body
capacity cap: one for n ≤ cap (an empty payload included), the ceiling
of n / cap otherwise. -/
def numFrames (cap n : Nat) : Nat := if n ≤ cap then 1 else (n + cap - 1) / cap

theorem mkStaLen_lt (s len : Nat) : mkStaLen s len < 65536 := by
  unfold mkStaLen
  have h1 : s % 64 < 64 := Nat.mod_lt _ (by norm_num)
  have h2 : len % 1024 < 1024 := Nat.mod_lt _ (by norm_num)
  omega

theorem hdrStaLen_mkFrame (rid echo cmd index s : Nat) (body : List Nat) :
    hdrStaLen (mkFrame rid echo cmd index s body) =
      some (mkStaLen s (body.length + 4)) := by
  have hlt := mkStaLen_lt s (body.length + 4)
  have hdiv : mkStaLen s (body.length + 4) / 256 < 256 := by omega
  simp only [mkFrame, hdrStaLen, List.cons_append, List.getElem?_cons_succ,
    List.getElem?_cons_zero, u16le]
  rw [Nat.mod_eq_of_lt hdiv]
  rw [Nat.mod_add_div (mkStaLen s (body.length + 4)) 256]

theorem hdrStatus_mkFrame (rid echo cmd index s : Nat) (body : List Nat) :
    hdrStatus (mkFrame rid echo cmd index s body) = some (s % 64) := by
  rw [hdrStatus, hdrStaLen_mkFrame]
  simp only [Option.map_some']
  congr 1
  unfold mkStaLen
  omega

theorem hdrLen_mkFrame (rid echo cmd index s : Nat) (body : List Nat) :
    hdrLen (mkFrame rid echo cmd index s body) =
      some ((body.length + 4) % 1024) := by
  rw [hdrLen, hdrStaLen_mkFrame]
  simp only [Option.map_some']
  congr 1
  unfold mkStaLen
  omega

/-- Closed form of the fragmentation loop on a present terminal status:
numFrames - 1 full chunks with status 1, then the final chunk with the
terminal status. -/
theorem encodeFramesGo_eq (cap reportId echo cmd index t : Nat) (hcap : cap ≠ 0) :
    ∀ (n : Nat) (remaining : List Nat), remaining.length ≤ n →
    encodeFramesGo cap reportId echo cmd index (some t) remaining =
      .ok ((List.range (numFrames cap remaining.length - 1)).map
          (fun j => mkFrame reportId echo cmd index 1 ((remaining.drop (j * cap)).take cap)) ++
        [mkFrame reportId echo cmd index t
          (remaining.drop ((numFrames cap remaining.length - 1) * cap))]) := by
  intro n
  induction n with
  | zero =>
      intro remaining hn
      have h0 : remaining.length = 0 := by omega
      have hr : remaining = [] := List.length_eq_zero.mp h0
      subst hr
      rw [encodeFramesGo, dif_neg hcap, dif_pos (by simp [Nat.zero_le])]
      simp [numFrames]
  | succ n ih =>
      intro remaining hn
      rw [encodeFramesGo, dif_neg hcap]
      by_cases hle : remaining.length ≤ cap
      · rw [dif_pos hle]
        have hN : numFrames cap remaining.length = 1 := by simp [numFrames, hle]
        rw [hN]
        simp
      · rw [dif_neg hle]
        have hlen : (remaining.drop cap).length = remaining.length - cap :=
          List.length_drop cap remaining
        rw [ih (remaining.drop cap) (by omega)]
        have hN : numFrames cap remaining.length =
            numFrames cap (remaining.drop cap).length + 1 := by
          rw [hlen]
          unfold numFrames
          by_cases h2 : remaining.length - cap ≤ cap
          · rw [if_neg hle, if_pos h2]
            apply Nat.div_eq_of_lt_le <;> omega
          · rw [if_neg hle, if_neg h2]
            have he : remaining.length + cap - 1 = (remaining.length - cap + cap - 1) + cap := by
              omega
            rw [he, Nat.add_div_right _ (Nat.pos_of_ne_zero hcap)]
        rw [hN, Nat.add_sub_cancel]
        have hN2 : 1 ≤ numFrames cap (remaining.drop cap).length := by
          unfold numFrames
          split
          · omega
          · have hc1 : 1 ≤ cap := Nat.pos_of_ne_zero hcap
            have h3 : cap ≤ (remaining.drop cap).length + cap - 1 := by omega
            have := Nat.one_le_div_iff hc1 |>.mpr h3
            omega
        obtain ⟨m, hm⟩ : ∃ m, numFrames cap (remaining.drop cap).length = m + 1 :=
          ⟨numFrames cap (remaining.drop cap).length - 1, by omega⟩
        rw [hm]
        simp only [Nat.add_sub_cancel]
        rw [List.range_succ_eq_map]
        simp only [List.map_cons, List.map_map, Nat.zero_mul, List.drop_zero,
          List.cons_append]
        congr 1
        congr 1
        congr 1
        · refine List.map_congr_left ?_
          intro j _
          simp only [Function.comp_apply, List.drop_drop, Nat.succ_eq_add_one]
          have e2 : cap + j * cap = (j + 1) * cap := by ring
          rw [e2]
        · rw [List.drop_drop]
          have e3 : cap + m * cap = (m + 1) * cap := by ring
          rw [e3]

theorem numFrames_bounds (cap n : Nat) (hcap : cap ≠ 0) :
    1 ≤ numFrames cap n ∧ n ≤ numFrames cap n * cap ∧
    (numFrames cap n - 1) * cap ≤ n := by
  unfold numFrames
  split
  · refine ⟨le_refl 1, by omega, by omega⟩
  · have hcap1 : 1 ≤ cap := Nat.pos_of_ne_zero hcap
    have hq := Nat.div_add_mod (n + cap - 1) cap
    have hr : (n + cap - 1) % cap < cap := Nat.mod_lt _ hcap1
    have hq1 : 1 ≤ (n + cap - 1) / cap := by
      rw [Nat.one_le_div_iff hcap1]
      omega
    have e1 : ((n + cap - 1) / cap - 1) * cap = (n + cap - 1) / cap * cap - cap := by
      rw [Nat.sub_mul, Nat.one_mul]
    have e2 : (n + cap - 1) / cap * cap = cap * ((n + cap - 1) / cap) := Nat.mul_comm _ _
    refine ⟨hq1, ?_, ?_⟩ <;> omega

/-- Shape of the frame list encodeFramesGo emits: numFrames frames, all of
them except the last with status 1 and a full cap-byte body, and the
last with the terminal status and the remainder of the payload. -/
theorem encode_frames_shape (cap reportId echo cmd index t : Nat) (p : List Nat)
    (hcap : cap ≠ 0) (hcap2 : cap ≤ 1016) (ht64 : t < 64) :
    ∃ fs, encodeFramesGo cap reportId echo cmd index (some t) p = .ok fs ∧
      fs.length = numFrames cap p.length ∧
      (∀ j f, j + 1 < fs.length → fs[j]? = some f →
        hdrStatus f = some 1 ∧ hdrLen f = some (cap + 4)) ∧
      (∃ f, fs[fs.length - 1]? = some f ∧ hdrStatus f = some t ∧
        hdrLen f = some (p.length - (fs.length - 1) * cap + 4)) := by
  obtain ⟨hN1, hNB, hNC⟩ := numFrames_bounds cap p.length hcap
  rw [encodeFramesGo_eq cap reportId echo cmd index t hcap p.length p (le_refl _)]
  refine ⟨_, rfl, ?_, ?_, ?_⟩
  · simp only [List.length_append, List.length_map, List.length_range,
      List.length_cons, List.length_nil]
    omega
  · intro j f hj hf
    have hlen : ((List.range (numFrames cap p.length - 1)).map
        (fun j => mkFrame reportId echo cmd index 1 ((p.drop (j * cap)).take cap))).length
          = numFrames cap p.length - 1 := by
      simp
    have hjlt : j < numFrames cap p.length - 1 := by
      simp only [List.length_append, List.length_map, List.length_range,
        List.length_cons, List.length_nil] at hj
      omega
    rw [List.getElem?_append_left (by rw [hlen]; omega)] at hf
    rw [List.getElem?_map, List.getElem?_range hjlt] at hf
    simp only [Option.map_some'] at hf
    injection hf with hf2
    subst hf2
    have hchunk : ((p.drop (j * cap)).take cap).length = cap := by
      have hj1 : (j + 1) * cap ≤ (numFrames cap p.length - 1) * cap :=
        Nat.mul_le_mul_right cap (by omega)
      have : (j + 1) * cap ≤ p.length := le_trans hj1 hNC
      simp only [List.length_take, List.length_drop]
      have : cap ≤ p.length - j * cap := by
        have e : (j + 1) * cap = j * cap + cap := by ring
        omega
      omega
    constructor
    · rw [hdrStatus_mkFrame]
    · rw [hdrLen_mkFrame, hchunk]
      congr 1
      have : cap + 4 < 1024 := by omega
      exact Nat.mod_eq_of_lt this
  · have hlen : ((List.range (numFrames cap p.length - 1)).map
        (fun j => mkFrame reportId echo cmd index 1 ((p.drop (j * cap)).take cap))).length
          = numFrames cap p.length - 1 := by
      simp
    have hL : (((List.range (numFrames cap p.length - 1)).map
        (fun j => mkFrame reportId echo cmd index 1 ((p.drop (j * cap)).take cap))) ++
        [mkFrame reportId echo cmd index t
          (p.drop ((numFrames cap p.length - 1) * cap))]).length
          = numFrames cap p.length := by
      simp only [List.length_append, List.length_map, List.length_range,
        List.length_cons, List.length_nil]
      omega
    obtain ⟨q, hq⟩ : ∃ q, numFrames cap p.length = q + 1 :=
      ⟨numFrames cap p.length - 1, by omega⟩
    refine ⟨mkFrame reportId echo cmd index t
      (p.drop ((numFrames cap p.length - 1) * cap)), ?_, ?_, ?_⟩
    · rw [hL, List.getElem?_append_right (by simp [hlen]), hlen]
      have hz : numFrames cap p.length - 1 - (numFrames cap p.length - 1) = 0 := by omega
      rw [hz]
      rfl
    · rw [hdrStatus_mkFrame, Nat.mod_eq_of_lt ht64]
    · rw [hdrLen_mkFrame, hL]
      have hbody : (p.drop ((numFrames cap p.length - 1) * cap)).length =
          p.length - (numFrames cap p.length - 1) * cap := by
        simp
      rw [hbody]
      congr 1
      have hsm : (q + 1) * cap = q * cap + cap := Nat.succ_mul q cap
      rw [hq] at hNB ⊢
      simp only [Nat.add_sub_cancel]
      exact Nat.mod_eq_of_lt (by omega)

/-- Conclusion of the amended claim C1 for one report id with body
capacity cap. -/
def C1Prop (reportId cap echo cmd index t : Nat) (v : HidPackage) : Prop :=
  ∃ fs, encode_report reportId echo cmd index v = .ok fs ∧
    (v.bytes.length ≤ cap → fs.length = 1) ∧
    (¬v.bytes.length ≤ cap → fs.length = (v.bytes.length + cap - 1) / cap) ∧
    (∀ j f, j + 1 < fs.length → fs[j]? = some f →
      hdrStatus f = some 1 ∧ hdrLen f = some (cap + 4)) ∧
    (∃ f, fs[fs.length - 1]? = some f ∧ hdrStatus f = some t ∧
      hdrLen f = some (v.bytes.length - (fs.length - 1) * cap + 4))

/-- Claim C1 (amended): encode_report fragments the payload into frames
whose per-frame body capacity is exactly 56 bytes for report id 0x21
and 1016 bytes for report id 0x22 (the len field of every non-final
frame is cap + 4), so a payload of n bytes produces exactly one frame
when n ≤ cap (an empty payload included) and the ceiling of n / cap
frames otherwise; every frame except the last carries status 0x01 and
the last carries the terminal status (0 or the StringContent encoding
tag); any other report id fails with UnsupportedReportId. -/
theorem C1_fragmentation (reportId echo cmd index t : Nat) (v : HidPackage)
    (ht : terminalOf v = some t) (ht64 : t < 64) :
    (reportId = REPORT_ID_21 →
      C1Prop reportId MAX_PACKAGE_LEN_21 echo cmd index t v) ∧
    (reportId = REPORT_ID_22 →
      C1Prop reportId MAX_PACKAGE_LEN_22 echo cmd index t v) ∧
    (reportId ≠ REPORT_ID_21 → reportId ≠ REPORT_ID_22 →
      encode_report reportId echo cmd index v =
        .error (.UnsupportedReportId reportId)) := by
  refine ⟨?_, ?_, ?_⟩
  · intro h21
    obtain ⟨fs, hfs, hlen, hmid, hlast⟩ := encode_frames_shape MAX_PACKAGE_LEN_21
      reportId echo cmd index t v.bytes (by norm_num [MAX_PACKAGE_LEN_21])
      (by norm_num [MAX_PACKAGE_LEN_21]) ht64
    refine ⟨fs, ?_, ?_, ?_, hmid, by rw [hlen] at hlast ⊢; exact hlast⟩
    · rw [encode_report, if_pos h21, ht]
      exact hfs
    · intro hle
      rw [hlen]
      simp [numFrames, hle]
    · intro hgt
      rw [hlen]
      simp [numFrames, hgt]
  · intro h22
    obtain ⟨fs, hfs, hlen, hmid, hlast⟩ := encode_frames_shape MAX_PACKAGE_LEN_22
      reportId echo cmd index t v.bytes (by norm_num [MAX_PACKAGE_LEN_22])
      (by norm_num [MAX_PACKAGE_LEN_22]) ht64
    refine ⟨fs, ?_, ?_, ?_, hmid, by rw [hlen] at hlast ⊢; exact hlast⟩
    · rw [encode_report, if_neg (by rw [h22]; norm_num [REPORT_ID_21, REPORT_ID_22]),
        if_pos h22, ht]
      exact hfs
    · intro hle
      rw [hlen]
      simp [numFrames, hle]
    · intro hgt
      rw [hlen]
      simp [numFrames, hgt]
  · intro hn21 hn22
    rw [encode_report, if_neg hn21, if_neg hn22]

theorem C1_fragmentation_witness :
    terminalOf ⟨none, none, List.replicate 60 7⟩ = some 0 ∧
    C1Prop REPORT_ID_21 MAX_PACKAGE_LEN_21 CLIENT_ECHO 5 9 0
      ⟨none, none, List.replicate 60 7⟩ :=
  ⟨by decide,
    ((C1_fragmentation REPORT_ID_21 CLIENT_ECHO 5 9 0 ⟨none, none, List.replicate 60 7⟩
      (by decide) (by decide)).1 rfl)⟩

/-- Claim C1 counterexample: a 56-byte payload on report 0x21 is emitted
as a single frame (a 64-byte wire frame whose len field is 56 + 4), not
as the two frames that a 52-byte capacity would force. -/
theorem C1_counterexample :
    (∃ fs, encode_report 0x21 0x13 5 9 ⟨none, none, List.replicate 56 7⟩ = .ok fs ∧
      fs.length = 1 ∧
      ∃ f, fs[0]? = some f ∧ hdrLen f = some 60 ∧ f.length = 64) ∧
    (56 + 52 - 1) / 52 = 2 := by
  constructor
  · obtain ⟨fs, hfs, hlen, _, hlast⟩ := encode_frames_shape MAX_PACKAGE_LEN_21
      0x21 0x13 5 9 0 (List.replicate 56 7) (by norm_num [MAX_PACKAGE_LEN_21])
      (by norm_num [MAX_PACKAGE_LEN_21]) (by norm_num)
    have hlen1 : fs.length = 1 := by
      rw [hlen]
      simp [numFrames, MAX_PACKAGE_LEN_21]
    refine ⟨fs, ?_, hlen1, ?_⟩
    · rw [encode_report, if_pos (show (0x21 : Nat) = REPORT_ID_21 from rfl)]
      have hterm : terminalOf ⟨none, none, List.replicate 56 7⟩ = some 0 := by decide
      rw [hterm]
      exact hfs
    · obtain ⟨f, hf0, _, hfl⟩ := hlast
      rw [hlen1] at hf0 hfl
      simp only [Nat.sub_self, Nat.zero_mul, Nat.sub_zero, List.length_replicate] at hf0 hfl
      refine ⟨f, hf0, ?_, ?_⟩
      · rw [hfl]
        try norm_num [MAX_PACKAGE_LEN_21]
      · have hfs2 := hfs
        rw [encodeFramesGo_eq MAX_PACKAGE_LEN_21 0x21 0x13 5 9 0
          (by norm_num [MAX_PACKAGE_LEN_21]) 56 (List.replicate 56 7) (by simp)] at hfs2
        have hfseq : fs = [mkFrame 0x21 0x13 5 9 0 (List.replicate 56 7)] := by
          have hnum : numFrames MAX_PACKAGE_LEN_21 (List.replicate 56 7).length = 1 := by
            simp [numFrames, MAX_PACKAGE_LEN_21]
          rw [hnum] at hfs2
          simp only [Nat.sub_self, List.range_zero, List.map_nil, List.nil_append,
            Nat.zero_mul, List.drop_zero] at hfs2
          injection hfs2 with he
          exact he.symm
        rw [hfseq] at hf0
        simp only [List.getElem?_cons_zero, Option.some.injEq] at hf0
        rw [← hf0]
        simp only [mkFrame, List.length_append, List.length_cons, List.length_replicate]
        try norm_num
  · norm_num


/-- The first 8 bytes of an encoded frame read back the report id that
built it. -/
theorem hdrReportId_take8 (rid e cmd i s : Nat) (b : List Nat) :
    hdrReportId ((mkFrame rid e cmd i s b).take 8) = some rid := rfl

/-- The first 8 bytes of an encoded frame read back its cmd byte. -/
theorem hdrCmd_take8 (rid e cmd i s : Nat) (b : List Nat) :
    hdrCmd ((mkFrame rid e cmd i s b).take 8) = some cmd := rfl

/-- The first 8 bytes of an encoded frame read back its index byte. -/
theorem hdrIndex_take8 (rid e cmd i s : Nat) (b : List Nat) :
    hdrIndex ((mkFrame rid e cmd i s b).take 8) = some i := rfl

/-- Feeding one encoded frame with client echo into join: the CRC always
verifies by construction, a status-1 frame appends its body to the
segment buffer of its (report id, cmd, index) key, and any other status
completes a message from the buffered bytes plus this body. -/
theorem join_mkFrame (bufs : Buffers) (rid cmd index s : Nat) (body : List Nat)
    (hrid : rid = REPORT_ID_21 ∨ rid = REPORT_ID_22) (hs : s < 64)
    (hbody : body.length ≤ 1016) :
    join bufs (mkFrame rid CLIENT_ECHO cmd index s body) =
      if s = 1 then
        .ok (alSet bufs (rid, cmd, index)
          ((alGet bufs (rid, cmd, index)).getD [] ++ body)) none
      else
        match alGet bufs (rid, cmd, index) with
        | some buffered => .ok (alRemove bufs (rid, cmd, index))
            (some ((mkFrame rid CLIENT_ECHO cmd index s body).take 8, buffered ++ body))
        | none =>
            .ok bufs (some ((mkFrame rid CLIENT_ECHO cmd index s body).take 8, body)) := by
  have hslval : mkStaLen s (body.length + 4) = s * 1024 + (body.length + 4) := by
    unfold mkStaLen
    have h1 : s % 64 = s := Nat.mod_eq_of_lt (by omega)
    have h2 : (body.length + 4) % 1024 = body.length + 4 := Nat.mod_eq_of_lt (by omega)
    rw [h1, h2]
  set sl := mkStaLen s (body.length + 4) with hsldef
  set crcv := get_crc16
    (rid :: CLIENT_ECHO :: 0 :: 0 :: sl % 256 :: sl / 256 % 256 :: cmd :: index :: body)
    with hcrcdef
  have hsl_lt : sl < 65536 := mkStaLen_lt s (body.length + 4)
  have hcrc_lt : crcv < 65536 := get_crc16_lt _
  have hframe : mkFrame rid CLIENT_ECHO cmd index s body =
      (rid :: CLIENT_ECHO :: crcv % 256 :: crcv / 256 % 256 :: sl % 256 :: sl / 256 % 256
        :: cmd :: index :: body) ++
        List.replicate ((4 - (body.length + 8) % 4) % 4) 0 := by
    simp only [mkFrame, ← hsldef, ← hcrcdef, List.length_cons]
  set frame := mkFrame rid CLIENT_ECHO cmd index s body with hframedef
  have hflen : frame.length = body.length + 8 + (4 - (body.length + 8) % 4) % 4 := by
    rw [hframe]
    simp only [List.length_append, List.length_cons, List.length_replicate]
  have htake : frame.take 8 =
      [rid, CLIENT_ECHO, crcv % 256, crcv / 256 % 256, sl % 256, sl / 256 % 256,
        cmd, index] := by
    rw [hframe]
    rfl
  have hv0 : hdrReportId (frame.take 8) = some rid := by rw [htake]; rfl
  have hv1 : hdrEcho (frame.take 8) = some CLIENT_ECHO := by rw [htake]; rfl
  have hv45 : hdrStaLen (frame.take 8) = some sl := by
    rw [htake]
    show some (u16le (sl % 256) (sl / 256 % 256)) = some sl
    unfold u16le
    congr 1
    omega
  have hvst : hdrStatus (frame.take 8) = some s := by
    rw [hdrStatus, hv45, Option.map_some']
    congr 1
    omega
  have hvlen : hdrLen (frame.take 8) = some (body.length + 4) := by
    rw [hdrLen, hv45, Option.map_some']
    congr 1
    omega
  have hvcmd : hdrCmd (frame.take 8) = some cmd := by rw [htake]; rfl
  have hvidx : hdrIndex (frame.take 8) = some index := by rw [htake]; rfl
  have hg2 : frame[2]? = some (crcv % 256) := by rw [hframe]; rfl
  have hg3 : frame[3]? = some (crcv / 256 % 256) := by rw [hframe]; rfl
  have hzero : (frame.set 2 0).set 3 0 =
      (rid :: CLIENT_ECHO :: 0 :: 0 :: sl % 256 :: sl / 256 % 256 :: cmd :: index :: body)
        ++ List.replicate ((4 - (body.length + 8) % 4) % 4) 0 := by
    rw [hframe]
    rfl
  have hcrc_eq : get_crc16 ((frame.set 2 0).set 3 0) = crcv := by
    rw [hzero, get_crc16_append_zeros]
  have hpc : u16le (frame[2]?.getD 0) (frame[3]?.getD 0) = crcv := by
    rw [hg2, hg3]
    unfold u16le
    simp only [Option.getD_some]
    omega
  simp only [join, HEADER_SIZE]
  rw [if_neg (by omega)]
  rw [hv0]
  simp only []
  rw [if_neg (by rcases hrid with h | h <;> simp [h])]
  rw [hv1]
  simp only []
  rw [if_neg (by simp [CLIENT_ECHO])]
  rw [if_neg (by rw [hpc, hcrc_eq]; simp)]
  rw [hvcmd, hvidx, hvlen, hvst]
  simp only []
  rw [if_neg (by
    rw [hflen]
    have := Nat.mod_lt (body.length + 8) (show 0 < 4 by norm_num)
    omega)]
  rw [if_neg (by omega)]
  have hdata : (frame.take (body.length + 4 + 4)).drop 8 = body := by
    rw [hframe]
    have hwc : (rid :: CLIENT_ECHO :: crcv % 256 :: crcv / 256 % 256 :: sl % 256
        :: sl / 256 % 256 :: cmd :: index :: body).length = body.length + 4 + 4 := by
      simp only [List.length_cons]
    rw [← hwc, List.take_left]
    rfl
  rw [hdata]

/-- The fragmentation loop round-trips through join: starting from a
buffer state holding acc for the key (or nothing, with acc empty), the
frames of encodeFramesGo deliver exactly one completed message carrying
acc ++ remaining. -/
theorem joinAll_encodeFramesGo (cap rid cmd index t : Nat)
    (hcap : cap = 56 ∨ cap = 1016) (hrid : rid = REPORT_ID_21 ∨ rid = REPORT_ID_22)
    (ht64 : t < 64) (ht1 : t ≠ 1) :
    ∀ n (remaining : List Nat), remaining.length = n →
    ∀ (bufs : Buffers) (acc : List Nat),
    (alGet bufs (rid, cmd, index) = some acc ∨
      (alGet bufs (rid, cmd, index) = none ∧ acc = [])) →
    ∃ frames bufs2 lastBody,
      encodeFramesGo cap rid CLIENT_ECHO cmd index (some t) remaining = .ok frames ∧
      joinAll bufs frames = .ok (bufs2,
        [((mkFrame rid CLIENT_ECHO cmd index t lastBody).take 8, acc ++ remaining)]) := by
  intro n
  induction n using Nat.strong_induction_on with
  | _ n ih =>
    intro remaining hlen bufs acc hacc
    have hcap0 : cap ≠ 0 := by rcases hcap with h | h <;> omega
    by_cases hshort : remaining.length ≤ cap
    · have hj := join_mkFrame bufs rid cmd index t remaining hrid ht64
        (by rcases hcap with h | h <;> omega)
      rcases hacc with h | ⟨h, hacc0⟩
      · refine ⟨[mkFrame rid CLIENT_ECHO cmd index t remaining],
          alRemove bufs (rid, cmd, index), remaining, ?_, ?_⟩
        · rw [encodeFramesGo, dif_neg hcap0, dif_pos hshort]
        · rw [joinAll, hj, if_neg ht1, h]
          simp [joinAll]
      · refine ⟨[mkFrame rid CLIENT_ECHO cmd index t remaining], bufs, remaining, ?_, ?_⟩
        · rw [encodeFramesGo, dif_neg hcap0, dif_pos hshort]
        · rw [joinAll, hj, if_neg ht1, h, hacc0]
          simp [joinAll]
    · push_neg at hshort
      have htl : (remaining.take cap).length = cap := by
        simp only [List.length_take]
        omega
      have hacc2 : alGet (alSet bufs (rid, cmd, index) (acc ++ remaining.take cap))
          (rid, cmd, index) = some (acc ++ remaining.take cap) := by
        rw [alGet_alSet, if_pos rfl]
      have hdl : (remaining.drop cap).length = n - cap := by
        simp only [List.length_drop]
        omega
      obtain ⟨frames, bufs2, lastBody, henc, hjoin⟩ :=
        ih (n - cap) (by omega) (remaining.drop cap) hdl
          (alSet bufs (rid, cmd, index) (acc ++ remaining.take cap))
          (acc ++ remaining.take cap) (Or.inl hacc2)
      refine ⟨mkFrame rid CLIENT_ECHO cmd index 1 (remaining.take cap) :: frames,
        bufs2, lastBody, ?_, ?_⟩
      · rw [encodeFramesGo, dif_neg hcap0, dif_neg (by omega : ¬remaining.length ≤ cap),
          henc]
      · have hj := join_mkFrame bufs rid cmd index 1 (remaining.take cap) hrid
          (by omega) (by rw [htl]; rcases hcap with h | h <;> omega)
        have hgetd : (alGet bufs (rid, cmd, index)).getD [] = acc := by
          rcases hacc with h | ⟨h, h0⟩
          · rw [h]
            rfl
          · rw [h, h0]
            rfl
        rw [joinAll, hj, if_pos rfl, hgetd]
        simp only [hjoin]
        simp [List.append_assoc, List.take_append_drop]

/-- Claim C2: round-trip through the codec.  For a package with a present
terminal status tag t (0 for plain content, the encoding tag for
StringContent) that is a valid status field value other than the
continuation marker 1, and a decoder whose segment buffer for the key
(report id, cmd, index) is empty, the frames of encode_report fed in
order into join produce exactly one completed message, whose header
carries the same report id, cmd and index and whose body is exactly the
package bytes. -/
theorem C2_roundtrip (rid cmd index t : Nat) (v : HidPackage) (bufs : Buffers)
    (hrid : rid = REPORT_ID_21 ∨ rid = REPORT_ID_22)
    (ht : terminalOf v = some t) (ht64 : t < 64) (ht1 : t ≠ 1)
    (hbufs : alGet bufs (rid, cmd, index) = none) :
    ∃ frames bufs2 hdr,
      encode_report rid CLIENT_ECHO cmd index v = .ok frames ∧
      joinAll bufs frames = .ok (bufs2, [(hdr, v.bytes)]) ∧
      hdrReportId hdr = some rid ∧ hdrCmd hdr = some cmd ∧ hdrIndex hdr = some index := by
  rcases hrid with h | h
  · subst h
    obtain ⟨frames, bufs2, lastBody, henc, hjoin⟩ :=
      joinAll_encodeFramesGo MAX_PACKAGE_LEN_21 REPORT_ID_21 cmd index t
        (Or.inl rfl) (Or.inl rfl) ht64 ht1
        v.bytes.length v.bytes rfl bufs [] (Or.inr ⟨hbufs, rfl⟩)
    refine ⟨frames, bufs2,
      (mkFrame REPORT_ID_21 CLIENT_ECHO cmd index t lastBody).take 8, ?_, ?_,
      hdrReportId_take8 _ _ _ _ _ _, hdrCmd_take8 _ _ _ _ _ _,
      hdrIndex_take8 _ _ _ _ _ _⟩
    · rw [encode_report, if_pos rfl, ht]
      exact henc
    · simpa using hjoin
  · subst h
    obtain ⟨frames, bufs2, lastBody, henc, hjoin⟩ :=
      joinAll_encodeFramesGo MAX_PACKAGE_LEN_22 REPORT_ID_22 cmd index t
        (Or.inr rfl) (Or.inr rfl) ht64 ht1
        v.bytes.length v.bytes rfl bufs [] (Or.inr ⟨hbufs, rfl⟩)
    refine ⟨frames, bufs2,
      (mkFrame REPORT_ID_22 CLIENT_ECHO cmd index t lastBody).take 8, ?_, ?_,
      hdrReportId_take8 _ _ _ _ _ _, hdrCmd_take8 _ _ _ _ _ _,
      hdrIndex_take8 _ _ _ _ _ _⟩
    · rw [encode_report, if_neg (by norm_num [REPORT_ID_21, REPORT_ID_22]),
        if_pos rfl, ht]
      exact henc
    · simpa using hjoin

/-- C2 witness: a 3-byte package on report 0x21 with cmd 5, index 9 and a
fresh decoder round-trips to a single completed message with body
[1, 2, 3]. -/
theorem C2_roundtrip_witness :
    terminalOf ⟨none, none, [1, 2, 3]⟩ = some 0 ∧
    alGet ([] : Buffers) (REPORT_ID_21, 5, 9) = none ∧
    ∃ frames bufs2 hdr,
      encode_report REPORT_ID_21 CLIENT_ECHO 5 9 ⟨none, none, [1, 2, 3]⟩ = .ok frames ∧
      joinAll [] frames = .ok (bufs2, [(hdr, [1, 2, 3])]) ∧
      hdrReportId hdr = some REPORT_ID_21 ∧ hdrCmd hdr = some 5 ∧
      hdrIndex hdr = some 9 :=
  ⟨by decide, rfl,
    C2_roundtrip REPORT_ID_21 5 9 0 ⟨none, none, [1, 2, 3]⟩ []
      (Or.inl rfl) (by decide) (by decide) (by decide) rfl⟩


/-- Every byte read inside an 8-byte header prefix of a long-enough
packet succeeds. -/
theorem take8_some (packet : List Nat) (i : Nat) (hi : i < 8)
    (hL : 8 ≤ packet.length) : ∃ v, (packet.take 8)[i]? = some v := by
  have h1 : i < (packet.take 8).length := by
    simp only [List.length_take]
    omega
  exact ⟨_, List.getElem?_eq_getElem h1⟩

/-- Decode validation behavior of join, claim C3.  Parts: BadHeaderLength
exactly on short frames; foreign report ids and foreign echo bytes are
ignored with unchanged state; with client echo the CrcError outcome is
equivalent to a mismatch of the recomputed additive checksum (CRC bytes
zeroed) against the received one; echo-0 frames are never CRC-checked;
and for an accepted header the BadReportLength outcome is equivalent to
len + 4 exceeding the frame length reduced mod 65536 (the Rust code
compares against packet.len() as u16). -/
def C3Prop (bufs : Buffers) (packet : List Nat) : Prop :=
  (join bufs packet = .err (.BadHeaderLength packet.length) ↔
    packet.length < HEADER_SIZE) ∧
  (∀ r, hdrReportId (packet.take HEADER_SIZE) = some r →
    r ≠ REPORT_ID_21 → r ≠ REPORT_ID_22 → HEADER_SIZE ≤ packet.length →
    join bufs packet = .ok bufs none) ∧
  (∀ e, hdrEcho (packet.take HEADER_SIZE) = some e → e ≠ CLIENT_ECHO → e ≠ 0 →
    HEADER_SIZE ≤ packet.length → join bufs packet = .ok bufs none) ∧
  (∀ r, HEADER_SIZE ≤ packet.length →
    hdrReportId (packet.take HEADER_SIZE) = some r →
    (r = REPORT_ID_21 ∨ r = REPORT_ID_22) →
    hdrEcho (packet.take HEADER_SIZE) = some CLIENT_ECHO →
    (join bufs packet = .err .CrcError ↔
      u16le (packet[2]?.getD 0) (packet[3]?.getD 0) ≠
        get_crc16 ((packet.set 2 0).set 3 0))) ∧
  (hdrEcho (packet.take HEADER_SIZE) = some 0 →
    join bufs packet ≠ .err .CrcError) ∧
  (∀ r len, HEADER_SIZE ≤ packet.length →
    hdrReportId (packet.take HEADER_SIZE) = some r →
    (r = REPORT_ID_21 ∨ r = REPORT_ID_22) →
    ((hdrEcho (packet.take HEADER_SIZE) = some CLIENT_ECHO ∧
      u16le (packet[2]?.getD 0) (packet[3]?.getD 0) =
        get_crc16 ((packet.set 2 0).set 3 0)) ∨
      hdrEcho (packet.take HEADER_SIZE) = some 0) →
    hdrLen (packet.take HEADER_SIZE) = some len →
    (join bufs packet = .err (.BadReportLength packet.length) ↔
      len + 4 > packet.length % 65536))

/-- Claim C3 (corrected): the validation ladder of ReportDecoder::join.
BadHeaderLength iff the frame is shorter than 8 bytes; Ok with unchanged
buffers and no dispatch when the report id is not 0x21 or 0x22, or the
echo is neither the client echo nor 0; with client echo, CrcError iff
the 16-bit additive checksum recomputed with the two CRC bytes zeroed
differs from the received CRC; echo-0 frames are never CRC-checked; and
BadReportLength iff the header len field + 4 exceeds the frame length
truncated to u16 (not the frame length itself: the cast
packet.len() as u16 wraps at 65536). -/
theorem C3_validation (bufs : Buffers) (packet : List Nat) : C3Prop bufs packet := by
  refine ⟨⟨?_, ?_⟩, ?_, ?_, ?_, ?_, ?_⟩
  · intro h
    by_contra hL
    simp only [join, HEADER_SIZE] at h
    rw [if_neg (by simpa [HEADER_SIZE] using hL)] at h
    repeat' split at h
    all_goals simp_all
  · intro hL
    simp only [join]
    rw [if_pos hL]
  · intro r hr hr1 hr2 hL
    have hL8 : 8 ≤ packet.length := hL
    have hr8 : hdrReportId (packet.take 8) = some r := hr
    simp only [join, HEADER_SIZE]
    rw [if_neg (by omega), hr8]
    simp only []
    rw [if_pos ⟨hr1, hr2⟩]
  · intro e he hne hne0 hL
    have hL8 : 8 ≤ packet.length := hL
    have he8 : hdrEcho (packet.take 8) = some e := he
    obtain ⟨r, hr⟩ := take8_some packet 0 (by norm_num) hL8
    have hr8 : hdrReportId (packet.take 8) = some r := hr
    simp only [join, HEADER_SIZE]
    rw [if_neg (by omega), hr8]
    simp only []
    by_cases hrgood : r ≠ REPORT_ID_21 ∧ r ≠ REPORT_ID_22
    · rw [if_pos hrgood]
    · rw [if_neg hrgood, he8]
      simp only []
      rw [if_pos ⟨hne, hne0⟩]
  · intro r hL hr hrg he
    have hL8 : 8 ≤ packet.length := hL
    have hr8 : hdrReportId (packet.take 8) = some r := hr
    have he8 : hdrEcho (packet.take 8) = some CLIENT_ECHO := he
    simp only [join, HEADER_SIZE]
    rw [if_neg (by omega), hr8]
    simp only []
    rw [if_neg (by rcases hrg with h | h <;> simp [h]), he8]
    simp only []
    rw [if_neg (by simp)]
    by_cases hc : u16le (packet[2]?.getD 0) (packet[3]?.getD 0) ≠
        get_crc16 ((packet.set 2 0).set 3 0)
    · rw [if_pos ⟨by norm_num [CLIENT_ECHO], hc⟩]
      simp [hc]
    · push_neg at hc
      rw [if_neg (by simp [hc])]
      rw [hc]
      constructor
      · intro h
        exfalso
        repeat' split at h
        all_goals simp_all
      · intro h
        exact absurd rfl h
  · intro he h
    by_cases hL : packet.length < HEADER_SIZE
    · simp only [join] at h
      rw [if_pos hL] at h
      simp at h
    · have he8 : hdrEcho (packet.take 8) = some 0 := he
      simp only [join, HEADER_SIZE] at h
      rw [if_neg (by simpa [HEADER_SIZE] using hL)] at h
      repeat' split at h
      all_goals simp_all
  · intro r len hL hr hrg hecho hlen
    have hL8 : 8 ≤ packet.length := hL
    have hr8 : hdrReportId (packet.take 8) = some r := hr
    have hlen8 : hdrLen (packet.take 8) = some len := hlen
    obtain ⟨v4, h4⟩ := take8_some packet 4 (by norm_num) hL8
    obtain ⟨v5, h5⟩ := take8_some packet 5 (by norm_num) hL8
    obtain ⟨c0, hc0⟩ := take8_some packet 6 (by norm_num) hL8
    obtain ⟨i0, hi0⟩ := take8_some packet 7 (by norm_num) hL8
    have hstal : hdrStaLen (packet.take 8) = some (u16le v4 v5) := by
      rw [hdrStaLen, h4, h5]
    have hcmd : hdrCmd (packet.take 8) = some c0 := hc0
    have hidx : hdrIndex (packet.take 8) = some i0 := hi0
    have hst : hdrStatus (packet.take 8) = some (u16le v4 v5 / 1024) := by
      rw [hdrStatus, hstal, Option.map_some']
    have hlen2 : hdrLen (packet.take 8) = some (u16le v4 v5 % 1024) := by
      rw [hdrLen, hstal, Option.map_some']
    constructor
    · intro h
      simp only [join, HEADER_SIZE] at h
      rw [if_neg (by omega), hr8] at h
      simp only [] at h
      rw [if_neg (by rcases hrg with hg | hg <;> simp [hg])] at h
      rcases hecho with ⟨he, hcrc⟩ | he
      · have he8 : hdrEcho (packet.take 8) = some CLIENT_ECHO := he
        rw [he8] at h
        simp only [] at h
        rw [if_neg (by simp), if_neg (by simp [hcrc]), hcmd, hidx, hlen8, hst] at h
        simp only [] at h
        by_cases hgt : len + 4 > packet.length % 65536
        · exact hgt
        · exfalso
          rw [if_neg hgt] at h
          repeat' split at h
          all_goals simp_all
      · have he8 : hdrEcho (packet.take 8) = some 0 := he
        rw [he8] at h
        simp only [] at h
        rw [if_neg (by norm_num [CLIENT_ECHO]), if_neg (by simp),
          hcmd, hidx, hlen8, hst] at h
        simp only [] at h
        by_cases hgt : len + 4 > packet.length % 65536
        · exact hgt
        · exfalso
          rw [if_neg hgt] at h
          repeat' split at h
          all_goals simp_all
    · intro hgt
      simp only [join, HEADER_SIZE]
      rw [if_neg (by omega), hr8]
      simp only []
      rw [if_neg (by rcases hrg with hg | hg <;> simp [hg])]
      rcases hecho with ⟨he, hcrc⟩ | he
      · have he8 : hdrEcho (packet.take 8) = some CLIENT_ECHO := he
        rw [he8]
        simp only []
        rw [if_neg (by simp), if_neg (by simp [hcrc]), hcmd, hidx, hlen8, hst]
        simp only []
        rw [if_pos hgt]
      · have he8 : hdrEcho (packet.take 8) = some 0 := he
        rw [he8]
        simp only []
        rw [if_neg (by norm_num [CLIENT_ECHO]), if_neg (by simp),
          hcmd, hidx, hlen8, hst]
        simp only []
        rw [if_pos hgt]


/-- Claim C3 counterexample: a 65536-byte frame with report id 0x21,
echo 0 and len field 0 satisfies len + 4 <= frame length, so the claimed
iff says it is not BadReportLength; the code truncates the length to
u16 (65536 % 65536 = 0) and rejects it as BadReportLength. -/
theorem C3_counterexample :
    (0x21 :: 0 :: List.replicate 65534 0).length = 65536 ∧
    hdrLen ((0x21 :: 0 :: List.replicate 65534 0).take 8) = some 0 ∧
    join [] (0x21 :: 0 :: List.replicate 65534 0) = .err (.BadReportLength 65536) := by
  have hlen : (0x21 :: 0 :: List.replicate 65534 0).length = 65536 := by
    rw [List.length_cons, List.length_cons, List.length_replicate]
  have htake : (0x21 :: 0 :: List.replicate 65534 0).take 8 =
      [0x21, 0, 0, 0, 0, 0, 0, 0] := rfl
  refine ⟨hlen, by rw [htake]; rfl, ?_⟩
  simp only [join, HEADER_SIZE]
  rw [hlen]
  rw [if_neg (by norm_num)]
  rw [show hdrReportId ((0x21 :: 0 :: List.replicate 65534 0).take 8) = some 0x21
    from by rw [htake]; rfl]
  simp only []
  rw [if_neg (fun hcon => hcon.1 rfl)]
  rw [show hdrEcho ((0x21 :: 0 :: List.replicate 65534 0).take 8) = some 0
    from by rw [htake]; rfl]
  simp only []
  rw [if_neg (fun hcon => hcon.2 rfl)]
  rw [if_neg (fun hcon => hcon.1 rfl)]
  rw [show hdrCmd ((0x21 :: 0 :: List.replicate 65534 0).take 8) = some 0
    from by rw [htake]; rfl]
  rw [show hdrIndex ((0x21 :: 0 :: List.replicate 65534 0).take 8) = some 0
    from by rw [htake]; rfl]
  rw [show hdrLen ((0x21 :: 0 :: List.replicate 65534 0).take 8) = some 0
    from by rw [htake]; rfl]
  rw [show hdrStatus ((0x21 :: 0 :: List.replicate 65534 0).take 8) = some 0
    from by rw [htake]; rfl]
  simp only []
  rw [if_pos (by norm_num)]

/-- C3 witness: a 3-byte frame is rejected as BadHeaderLength 3, and a
frame with foreign report id 0x63 is ignored with unchanged state. -/
theorem C3_validation_witness :
    join [] [0x21, 0x13, 0] = .err (.BadHeaderLength 3) ∧
    join [] [0x63, 0x13, 0, 0, 0, 0, 0, 0] = .ok [] none :=
  ⟨(C3_validation [] [0x21, 0x13, 0]).1.mpr (by decide),
    (C3_validation [] [0x63, 0x13, 0, 0, 0, 0, 0, 0]).2.1 0x63 (by decide) (by decide)
      (by decide) (by decide)⟩


end Sayo
